import Mathlib

set_option maxRecDepth 100000

set_option maxHeartbeats 4000000

/-!
Verification development for the Interactive-Chess rules-and-state engine
(`_board/board.py`, `_board/tile.py`).  The Board, Tile and all Board
operations are shallowly embedded from the Python source; the per-piece
movement capability (package `_pieces`, absent from the sources) is
modelled from the specification's piece-capability contract (spec section
4.2) and data model (spec section 3).  Python's mutation of shared piece
objects is rendered as explicit state passing: the grid stores piece
values, and every place where Python mutates `piece.current_pos` on an
object aliased by a tile is rendered by storing the updated piece value in
that tile.
-/

namespace Chess

/-- Color enum from `_enums.color` (absent from src).
Modelled from the spec: section 3, "Color: enum {WHITE, BLACK}; has an
`opposite()` operation". -/
inductive Color where
  | WHITE
  | BLACK
deriving DecidableEq, Repr

/-- Modelled from the spec: `Color.opposite()` swaps the two colors
(section 3; usage in `resign`: "Winner is the opposite color"). -/
def Color.opposite : Color → Color
  | Color.WHITE => Color.BLACK
  | Color.BLACK => Color.WHITE

/-- PieceType enum from `_pieces.piece` (absent from src).
Modelled from the spec: section 3, "PieceKind: enum {KING, QUEEN, ROOK,
BISHOP, KNIGHT, PAWN}". -/
inductive PieceType where
  | KING
  | QUEEN
  | ROOK
  | BISHOP
  | KNIGHT
  | PAWN
deriving DecidableEq, Repr

/-- Modelled from the spec: fixed material value per kind (section 3:
PAWN=1, KNIGHT=3, BISHOP=3, ROOK=5, QUEEN=9, KING=0).  In Python this is
`piece.piece_value.value`. -/
def pieceVal : PieceType → Int
  | PieceType.KING => 0
  | PieceType.QUEEN => 9
  | PieceType.ROOK => 5
  | PieceType.BISHOP => 3
  | PieceType.KNIGHT => 3
  | PieceType.PAWN => 1

/-- Modelled from the spec: single-character notation symbol per kind,
lowercase form (section 3: k,q,r,b,n,p).  In Python this is
`piece.piece_type.value`. -/
def typeChar : PieceType → Char
  | PieceType.KING => 'k'
  | PieceType.QUEEN => 'q'
  | PieceType.ROOK => 'r'
  | PieceType.BISHOP => 'b'
  | PieceType.KNIGHT => 'n'
  | PieceType.PAWN => 'p'

/-- Uppercase notation symbol, `symbol.upper()` in `board_state`. -/
def typeCharUp : PieceType → Char
  | PieceType.KING => 'K'
  | PieceType.QUEEN => 'Q'
  | PieceType.ROOK => 'R'
  | PieceType.BISHOP => 'B'
  | PieceType.KNIGHT => 'N'
  | PieceType.PAWN => 'P'

/-- A square as `(file, rank)`, both in `[0,7]`, mirroring the Python
tuples. -/
abbrev Pos := Nat × Nat

/-- Piece entity from `_pieces.piece` (absent from src).
Modelled from the spec: section 3, "Piece: identity-bearing entity with
`color`, `kind`, `current_position (file,rank)`, `has_moved` flag ...
and a `promoted` flag".  Value semantics stand in for Python object
identity. -/
structure Piece where
  color : Color
  piece_type : PieceType
  current_pos : Pos
  has_moved : Bool := false
  promoted : Bool := false
deriving DecidableEq, Repr

/-- Modelled from the spec: `piece.get_position()` returns the current
position tuple (used by `move_piece`). -/
def Piece.get_position (p : Piece) : Pos := p.current_pos

/-- Tile from `_board/tile.py`: coordinates, light-square flag, optional
occupant and display markers.  The field `check_ind` is the check marker:
board.py calls `tile.set_check()` / `tile.clear_check()` although
`tile.py` does not define them; modelled from the spec (section 4.4,
"clear all check markers ... set the opposing king's check marker") as a
display-only boolean alongside the three markers of `tile.py`. -/
structure Tile where
  file : Nat
  rank : Nat
  is_light_square : Bool
  piece_here : Option Piece := none
  highlighted : Bool := false
  prev : Bool := false
  clicked : Bool := false
  check_ind : Bool := false
deriving DecidableEq, Repr

/-- One entry of `move_history` (the dict appended in `move_piece` /
`initialize_pieces`: keys Piece, From, To, Captured, FEN). -/
structure MoveRecord where
  piece : Option Piece
  from_sq : Option Pos
  to_sq : Option Pos
  captured : Option Piece
  fen : String
deriving DecidableEq, Repr

/-- The Board state of `_board/board.py` (`__init__` fields).  The grid is
`grid[rank][file]` exactly as in Python. -/
structure Board where
  grid : List (List Tile)
  selected_piece : Option Piece := none
  checking_for_checks : Bool := false
  en_passant_target : Option Pos := none
  move_history : List MoveRecord := []
  current_index : Int := -1
  material_differential : Int := 0
  checkmate : Bool := false
  stalemate : Bool := false
  mate_color : Option Color := none
  resigned : Bool := false
deriving DecidableEq, Repr

/-- Read the tile at `(file, rank)`; `none` when out of bounds. -/
def getTile (b : Board) (p : Pos) : Option Tile :=
  (b.grid[p.2]?).bind (fun row => row[p.1]?)

/-- Occupant of the tile at `(file, rank)` (`grid[rank][file].piece_here`);
`none` when empty or out of bounds. -/
def tileAt (b : Board) (p : Pos) : Option Piece :=
  ((getTile b p).map Tile.piece_here).join

/-- Update the tile at `(file, rank)` with `g` (the common shape of every
single-tile mutation in board.py).  Out-of-bounds positions leave the
grid unchanged (Python would raise IndexError; no embedded operation
performs one). -/
def updTile (b : Board) (p : Pos) (g : Tile → Tile) : Board :=
  { b with grid :=
      match b.grid[p.2]? with
      | none => b.grid
      | some row =>
        match row[p.1]? with
        | none => b.grid
        | some t => b.grid.set p.2 (row.set p.1 (g t)) }

/-- Write the occupant of the tile at `(file, rank)`
(`grid[rank][file].piece_here = v`); all display markers of the tile are
kept. -/
def setPiece (b : Board) (p : Pos) (v : Option Piece) : Board :=
  updTile b p (fun t => { t with piece_here := v })

/-! ## Piece capability (modelled from the spec, section 4.2)

The `_pieces` package is not among the sources; only the Board (its
caller) is.  `get_moves` below is therefore modelled from the spec's
piece-capability contract: sliding pieces stop at the first occupied
square in each direction (capturing an enemy), knight and king moves are
fixed-offset, pawns step forward when unobstructed (two squares from the
unmoved start when both are empty), capture diagonally only onto an
enemy, capture en passant onto the board's `en_passant_target`, and kings
include castling destinations when king and rook are unmoved and the
squares between them are empty (the attacked-squares condition is the
Board's responsibility, not the piece's). -/

/-- Occupant at integer coordinates; `none` off the board. -/
def occAt (b : Board) (f r : Int) : Option Piece :=
  if 0 ≤ f ∧ f < 8 ∧ 0 ≤ r ∧ r < 8 then tileAt b (f.toNat, r.toNat) else none

/-- Integer coordinates lie on the board. -/
def onBoard (f r : Int) : Bool :=
  decide (0 ≤ f ∧ f < 8 ∧ 0 ≤ r ∧ r < 8)

/-- Modelled from the spec: one sliding ray for a piece of color `c`,
walking from `(f, r)` in direction `d`, stopping at the first occupied
square and capturing it when it is an enemy. -/
def slide (b : Board) (c : Color) (d : Int × Int) : Int → Int → Nat → List Pos
  | _, _, 0 => []
  | f, r, n + 1 =>
    let f' := f + d.1
    let r' := r + d.2
    if onBoard f' r' then
      match tileAt b (f'.toNat, r'.toNat) with
      | none => (f'.toNat, r'.toNat) :: slide b c d f' r' n
      | some q => if q.color = c then [] else [(f'.toNat, r'.toNat)]
    else []

/-- Modelled from the spec: fixed-offset destinations (knight, king) that
are on the board and not occupied by a piece of the mover's color. -/
def offsetMoves (b : Board) (p : Piece) (offs : List (Int × Int)) : List Pos :=
  offs.filterMap (fun d =>
    let f := (p.current_pos.1 : Int) + d.1
    let r := (p.current_pos.2 : Int) + d.2
    if onBoard f r then
      match tileAt b (f.toNat, r.toNat) with
      | none => some (f.toNat, r.toNat)
      | some q => if q.color = p.color then none else some (f.toNat, r.toNat)
    else none)

/-- Modelled from the spec: all rays of a sliding piece. -/
def slideMoves (b : Board) (p : Piece) (dirs : List (Int × Int)) : List Pos :=
  dirs.foldr (fun d acc =>
    slide b p.color d (p.current_pos.1 : Int) (p.current_pos.2 : Int) 7 ++ acc) []

def rookDirs : List (Int × Int) := [(1, 0), (-1, 0), (0, 1), (0, -1)]

def bishopDirs : List (Int × Int) := [(1, 1), (1, -1), (-1, 1), (-1, -1)]

def knightOffs : List (Int × Int) :=
  [(1, 2), (2, 1), (2, -1), (1, -2), (-1, -2), (-2, -1), (-2, 1), (-1, 2)]

def kingOffs : List (Int × Int) :=
  [(1, 0), (1, 1), (0, 1), (-1, 1), (-1, 0), (-1, -1), (0, -1), (1, -1)]

/-- Modelled from the spec: pawn capability — forward one when empty, two
from the unmoved start when both intervening squares are empty, diagonal
capture only onto an enemy, and en passant onto the recorded
`en_passant_target`. -/
def pawnMoves (b : Board) (p : Piece) : List Pos :=
  let f := (p.current_pos.1 : Int)
  let r := (p.current_pos.2 : Int)
  let dir : Int := if p.color = Color.WHITE then 1 else -1
  let fwd1 :=
    if onBoard f (r + dir) ∧ occAt b f (r + dir) = none then
      [(f.toNat, (r + dir).toNat)] else []
  let fwd2 :=
    if ¬p.has_moved ∧ occAt b f (r + dir) = none ∧
        onBoard f (r + 2 * dir) ∧ occAt b f (r + 2 * dir) = none then
      [(f.toNat, (r + 2 * dir).toNat)] else []
  let cap (df : Int) : List Pos :=
    if onBoard (f + df) (r + dir) then
      match occAt b (f + df) (r + dir) with
      | some q => if q.color = p.color then [] else [((f + df).toNat, (r + dir).toNat)]
      | none =>
        if b.en_passant_target = some ((f + df).toNat, (r + dir).toNat) then
          [((f + df).toNat, (r + dir).toNat)] else []
    else []
  fwd1 ++ fwd2 ++ cap (-1) ++ cap 1

/-- Modelled from the spec: castling destinations for an unmoved king —
the relevant rook is unmoved and of the king's color and every square
between king and rook is empty; the not-through-check condition is left
to the Board's legality filter. -/
def castleMoves (b : Board) (p : Piece) : List Pos :=
  if p.has_moved then [] else
  let r := p.current_pos.2
  let short :=
    match tileAt b (7, r) with
    | some q =>
      if q.piece_type = PieceType.ROOK ∧ q.color = p.color ∧ ¬q.has_moved ∧
          tileAt b (5, r) = none ∧ tileAt b (6, r) = none then
        [(6, r)] else []
    | none => []
  let long :=
    match tileAt b (0, r) with
    | some q =>
      if q.piece_type = PieceType.ROOK ∧ q.color = p.color ∧ ¬q.has_moved ∧
          tileAt b (1, r) = none ∧ tileAt b (2, r) = none ∧
          tileAt b (3, r) = none then
        [(2, r)] else []
    | none => []
  short ++ long

/-- Modelled from the spec: `piece.get_moves(board)` — the pseudo-legal
destination set of the piece capability contract (section 4.2); no
self-check filtering here. -/
def get_moves (b : Board) (p : Piece) : List Pos :=
  match p.piece_type with
  | PieceType.ROOK => slideMoves b p rookDirs
  | PieceType.BISHOP => slideMoves b p bishopDirs
  | PieceType.QUEEN => slideMoves b p (rookDirs ++ bishopDirs)
  | PieceType.KNIGHT => offsetMoves b p knightOffs
  | PieceType.KING => offsetMoves b p kingOffs ++ castleMoves b p
  | PieceType.PAWN => pawnMoves b p

/-- Modelled from the spec: the relocation hook `piece.move(new_pos,
board)` called by `move_piece` — records the new position, marks the
piece moved, and maintains the en-passant window (section 8: after a pawn
double-step the passed-over square becomes `en_passant_target`; after any
other move it reverts to none).  Returns the updated board and the
updated piece value (Python mutates the shared piece object). -/
def pieceMove (b : Board) (p : Piece) (new_pos : Pos) : Board × Piece :=
  let p' := { p with current_pos := new_pos, has_moved := true }
  let ep : Option Pos :=
    if p.piece_type = PieceType.PAWN ∧
        (p.current_pos.1 = new_pos.1) ∧
        ((p.current_pos.2 + 2 = new_pos.2) ∨ (new_pos.2 + 2 = p.current_pos.2)) then
      some (new_pos.1, (p.current_pos.2 + new_pos.2) / 2)
    else none
  ({ b with en_passant_target := ep }, p')

/-! ## Board: scanning, check detection (board.py lines 256-423)

Python's mutual recursion `check_for_checks` → `get_all_enemy_moves` →
`get_all_legal` → `check_if_move_into_check` → `check_for_checks` is
embedded by abstracting the innermost call as a parameter `chk` and tying
the knot with a fuel-indexed `check_for_checksF`; the re-entrancy guard
`checking_for_checks` makes any nested invocation return immediately, so
fuel 2 reproduces every Python run (theorem `check_for_checksF_stable`
below certifies that larger fuel changes nothing). -/

/-- The 64 squares in Python iteration order (`for rank ... for file ...`),
each as `(file, rank)`. -/
def allSquares : List Pos :=
  ((List.range 8).map (fun r => (List.range 8).map (fun f => (f, r)))).flatten

/-- Board.find_king (lines 304-320): first scan hit of the king of the
given color, as `(file, rank)`. -/
def find_king (b : Board) (color : Color) : Option Pos :=
  allSquares.find? (fun fr =>
    match tileAt b fr with
    | some p => decide (p.color = color ∧ p.piece_type = PieceType.KING)
    | none => false)

/-- The speculative application of a move (check_if_move_into_check lines
365-368): clear the source tile and put the piece — whose `current_pos`
Python mutates to `new_pos` — on the target tile, removing the target's
occupant. -/
def speculate (b : Board) (piece : Piece) (new_pos : Pos) : Board :=
  setPiece (setPiece b piece.current_pos none) new_pos
    (some { piece with current_pos := new_pos })

/-- Board.check_if_move_into_check (lines 348-378) with the nested
`check_for_checks` abstracted as `chk`: store the target occupant,
speculatively apply the move, evaluate `chk`, then undo (source tile gets
the piece back with its original position, target tile gets the stored
occupant, in source order). -/
def check_if_move_into_checkA (chk : Board → Color → Board × Bool)
    (b : Board) (piece : Piece) (new_pos : Pos) : Board × Bool :=
  let current_pos := piece.current_pos
  let captured_piece := tileAt b new_pos
  let b2 := speculate b piece new_pos
  let res := chk b2 piece.color
  let b3 := setPiece res.1 current_pos (some piece)
  let b4 := setPiece b3 new_pos captured_piece
  (b4, res.2)

/-- The legality-filter loop of Board.get_all_legal (lines 389-396),
threading the board through each speculative check. -/
def get_all_legalLoop (chk : Board → Color → Board × Bool) (piece : Piece) :
    Board → List Pos → List Pos → Board × List Pos
  | b, [], acc => (b, acc)
  | b, m :: rest, acc =>
    let res := check_if_move_into_checkA chk b piece m
    get_all_legalLoop chk piece res.1 rest (if res.2 then acc else acc ++ [m])

/-- Board.get_all_legal (lines 380-396): the piece's pseudo-legal moves
filtered by `check_if_move_into_check`. -/
def get_all_legalA (chk : Board → Color → Board × Bool)
    (b : Board) (piece : Piece) : Board × List Pos :=
  get_all_legalLoop chk piece b (get_moves b piece) []

/-- The `if move not in all_moves: all_moves.append(move)` accumulation of
get_all_enemy_moves (lines 298-300). -/
def dedupAppend : List Pos → List Pos → List Pos
  | acc, [] => acc
  | acc, m :: rest => dedupAppend (if m ∈ acc then acc else acc ++ [m]) rest

/-- The square scan of Board.get_all_enemy_moves (lines 292-300). -/
def enemyLoop (chk : Board → Color → Board × Bool) (color : Color) :
    Board → List Pos → List Pos → Board × List Pos
  | b, [], acc => (b, acc)
  | b, fr :: rest, acc =>
    match tileAt b fr with
    | some piece =>
      if piece.color = color then enemyLoop chk color b rest acc
      else
        let res := get_all_legalA chk b piece
        enemyLoop chk color res.1 rest (dedupAppend acc res.2)
    | none => enemyLoop chk color b rest acc

/-- Board.get_all_enemy_moves (lines 280-302): deduplicated union of
`get_all_legal` over every piece of the opposite color. -/
def get_all_enemy_movesA (chk : Board → Color → Board × Bool)
    (b : Board) (color : Color) : Board × List Pos :=
  enemyLoop chk color b allSquares []

/-- Board.check_for_checks (lines 322-346), fuel-indexed: short-circuit to
false while `checking_for_checks` is set (lines 332-333); otherwise set
the guard, look up the king, collect enemy moves, and clear the guard
(the `finally` of line 346 assigns False on both return paths). -/
def check_for_checksF : Nat → Board → Color → Board × Bool
  | 0, b, _ => (b, false)
  | fuel + 1, b, color =>
    if b.checking_for_checks then (b, false)
    else
      let b1 := { b with checking_for_checks := true }
      match find_king b1 color with
      | none => ({ b1 with checking_for_checks := false }, false)
      | some king_pos =>
        let res := get_all_enemy_movesA (check_for_checksF fuel) b1 color
        ({ res.1 with checking_for_checks := false }, decide (king_pos ∈ res.2))

/-- Board.check_for_checks: fuel 2 reproduces every Python execution (the
guard flag stops all deeper nesting; see `check_for_checksF_stable`). -/
def check_for_checks (b : Board) (color : Color) : Board × Bool :=
  check_for_checksF 2 b color

/-- Board.check_if_move_into_check at the Python entry point. -/
def check_if_move_into_check (b : Board) (piece : Piece) (new_pos : Pos) :
    Board × Bool :=
  check_if_move_into_checkA (check_for_checksF 2) b piece new_pos

/-- Board.get_all_legal at the Python entry point. -/
def get_all_legal (b : Board) (piece : Piece) : Board × List Pos :=
  get_all_legalA (check_for_checksF 2) b piece

/-- Board.get_all_enemy_moves at the Python entry point. -/
def get_all_enemy_moves (b : Board) (color : Color) : Board × List Pos :=
  get_all_enemy_movesA (check_for_checksF 2) b color

/-! ## Board: simple mutators and helpers -/

/-- Board.is_curr_pos (lines 682-684): the view equals the tail of the
history. -/
def is_curr_pos (b : Board) : Bool :=
  decide (b.current_index = (b.move_history.length : Int) - 1)

/-- Board.get_piece (lines 201-203): select a piece. -/
def get_piece (b : Board) (piece : Piece) : Board :=
  { b with selected_piece := some piece }

/-- Board.remove_check_indicators (lines 238-242): clear the check marker
of every tile. -/
def remove_check_indicators (b : Board) : Board :=
  { b with grid := b.grid.map (fun row => row.map (fun t => { t with check_ind := false })) }

/-- Set the check marker of one tile (`tile.set_check()`). -/
def set_check_at (b : Board) (p : Pos) : Board :=
  updTile b p (fun t => { t with check_ind := true })

/-- Board.highlight_king_in_check (lines 244-254): re-evaluates
`check_for_checks` and marks the king's tile. -/
def highlight_king_in_check (b : Board) (color : Color) : Board :=
  let res := check_for_checks b color
  if res.2 then
    match find_king res.1 color with
    | some king_pos => set_check_at res.1 king_pos
    | none => res.1
  else res.1

/-- Board.calculate_material (lines 580-606): total white material minus
total black material over the whole grid. -/
def calculate_material (b : Board) : Int :=
  allSquares.foldl (fun acc fr =>
    match tileAt b fr with
    | none => acc
    | some p =>
      if p.color = Color.WHITE then acc + pieceVal p.piece_type
      else acc - pieceVal p.piece_type) 0

/-- Board.resign (lines 451-463): set terminal state; winner is the
opposite color. -/
def resign (b : Board) (resigning_color : Color) : Board :=
  { b with resigned := true, checkmate := true,
           mate_color := some resigning_color.opposite }

/-- Board.promote (lines 686-695): replace the occupant with a fresh
Queen; nothing else (in particular `material_differential`) is touched. -/
def promote (b : Board) (color : Color) (file rank : Nat) : Board :=
  setPiece b (file, rank) (some { color := color, piece_type := PieceType.QUEEN,
                                  current_pos := (file, rank) })

/-- Board.en_passant (lines 425-449): when the target is the recorded
en-passant square, remove the enemy pawn behind it; relocate the capturing
pawn (Python mutates `piece.current_pos` and `has_moved` on the object it
just stored in the tile) and clear the window. -/
def en_passant (b : Board) (piece : Piece) (new_pos : Pos) : Board :=
  let prev_pos := piece.current_pos
  let b1 :=
    if b.en_passant_target = some new_pos then
      let check_square : Pos :=
        if piece.color = Color.WHITE then (new_pos.1, new_pos.2 - 1)
        else (new_pos.1, new_pos.2 + 1)
      setPiece b check_square none
    else b
  let b2 := setPiece b1 prev_pos none
  let b3 := setPiece b2 new_pos
      (some { piece with current_pos := new_pos, has_moved := true })
  { b3 with en_passant_target := none }

/-! ## Board: FEN serialization (board.py lines 512-671) -/

/-- `str(empty_count)` for the single-digit counts of a FEN row. -/
def digitChar (n : Nat) : Char := Char.ofNat (48 + n)

/-- The symbol written for a piece: uppercase for White, lowercase for
Black (board_state lines 539-551). -/
def pieceChar (p : Piece) : Char :=
  if p.color = Color.WHITE then typeCharUp p.piece_type else typeChar p.piece_type

/-- One FEN row from the occupants of a rank, carrying the running
`empty_count` (board_state lines 530-552): empty squares accumulate the
count, a piece flushes any pending count before its symbol, and a pending
count at the end of the row is flushed. -/
def fenRowAux : List (Option Piece) → Nat → List Char
  | [], 0 => []
  | [], c + 1 => [digitChar (c + 1)]
  | none :: rest, c => fenRowAux rest (c + 1)
  | some p :: rest, 0 => pieceChar p :: fenRowAux rest 0
  | some p :: rest, c + 1 => digitChar (c + 1) :: pieceChar p :: fenRowAux rest 0

/-- The occupants of one rank, files 0 through 7. -/
def rowPieces (b : Board) (r : Nat) : List (Option Piece) :=
  (List.range 8).map (fun f => tileAt b (f, r))

/-- Join FEN rows with `/` (the Python code appends `/` after every row
and strips the final one). -/
def joinSlash : List (List Char) → List Char
  | [] => []
  | [r] => r
  | r :: rs => r ++ '/' :: joinSlash rs

/-- The piece-placement field: rank 7 down to rank 0, rows joined by `/`. -/
def placementChars (b : Board) : List Char :=
  joinSlash (((List.range 8).reverse).map (fun r => fenRowAux (rowPieces b r) 0))

/-- Board.board_state (lines 512-578): the FEN piece placement; when an
active color is supplied, append side-to-move, placeholder castling `-`,
the en-passant target in algebraic form or `-`, and placeholder clocks
`0 1`. -/
def board_state (b : Board) (active_color : Option Color) : String :=
  let placement := placementChars b
  match active_color with
  | none => String.mk placement
  | some c =>
    let turn_char := if c = Color.WHITE then 'w' else 'b'
    let ep : List Char :=
      match b.en_passant_target with
      | some t => [Char.ofNat (97 + t.1), digitChar (t.2 + 1)]
      | none => ['-']
    String.mk (placement ++ [' ', turn_char, ' ', '-', ' '] ++ ep ++ [' ', '0', ' ', '1'])

/-- A freshly constructed `Tile(file, rank, is_light)`. -/
def freshTile (f r : Nat) : Tile :=
  { file := f, rank := r, is_light_square := decide ((f + r) % 2 = 1) }

/-- The 8x8 grid of freshly constructed tiles (load_fen lines 616-623 and
`__init__` lines 40-46). -/
def freshGrid : List (List Tile) :=
  (List.range 8).map (fun r => (List.range 8).map (fun f => freshTile f r))

/-- `fen.split('/')` on the character list (Python str.split with a
separator keeps empty fragments; splitting the empty string yields one
empty fragment). -/
def splitSlash : List Char → List (List Char)
  | [] => [[]]
  | c :: rest =>
    if c = '/' then [] :: splitSlash rest
    else
      match splitSlash rest with
      | [] => [[c]]
      | r :: rs => (c :: r) :: rs

/-- The `piece_class` dictionary of load_fen (lines 643-650). -/
def charType : Char → Option PieceType
  | 'p' => some PieceType.PAWN
  | 'r' => some PieceType.ROOK
  | 'n' => some PieceType.KNIGHT
  | 'b' => some PieceType.BISHOP
  | 'q' => some PieceType.QUEEN
  | 'k' => some PieceType.KING
  | _ => none

/-- The piece load_fen constructs at `(file, rank)`: default flags, with a
pawn off its home rank marked `has_moved` (lines 652-660). -/
def fenPiece (color : Color) (ty : PieceType) (file rank : Nat) : Piece :=
  { color := color, piece_type := ty, current_pos := (file, rank),
    has_moved := decide (ty = PieceType.PAWN ∧
      ((color = Color.WHITE ∧ rank ≠ 1) ∨ (color = Color.BLACK ∧ rank ≠ 6))) }

/-- The piece constructed by load_fen for one character: case gives the
color, the lowered character the kind (lines 638-660).  `none` for a
character outside the dictionary (Python raises KeyError there; spec
section 7 declares malformed FEN fatal). -/
def fenPieceAt (ch : Char) (file rank : Nat) : Option Piece :=
  (charType ch.toLower).map (fun ty =>
    fenPiece (if ch.isUpper then Color.WHITE else Color.BLACK) ty file rank)

/-- The per-row character loop of load_fen (lines 630-665): a digit
advances `file_index`, a piece character places a piece and advances by
one.  A character outside the dictionary is skipped (Python: KeyError). -/
def parseRowChars (rank : Nat) : Board → List Char → Nat → Board
  | b, [], _ => b
  | b, ch :: rest, file_index =>
    if ch.isDigit then parseRowChars rank b rest (file_index + (ch.toNat - 48))
    else
      match fenPieceAt ch file_index rank with
      | some pc =>
        parseRowChars rank (setPiece b (file_index, rank) (some pc)) rest (file_index + 1)
      | none => parseRowChars rank b rest file_index

/-- The `enumerate(reversed(rank_rows))` loop of load_fen (line 629). -/
def parseRows : Board → List (List Char) → Nat → Board
  | b, [], _ => b
  | b, row :: rest, rank_index =>
    parseRows (parseRowChars rank_index b row 0) rest (rank_index + 1)

/-- Board.load_fen (lines 608-671): rebuild every tile, parse the
placement rows bottom rank first, recompute the material differential,
and clear the check indicators. -/
def load_fen (b : Board) (fen : String) : Board :=
  let b0 := { b with grid := freshGrid }
  let b1 := parseRows b0 (splitSlash fen.toList).reverse 0
  remove_check_indicators { b1 with material_differential := calculate_material b1 }

/-! ## Board: move application (board.py lines 93-199) -/

/-- The incremental material update for a capture (move_piece lines
106-124); the captured piece's `delete()` touches no Board state. -/
def capturedUpdate (b : Board) (captured : Option Piece) : Board :=
  match captured with
  | some cp =>
    if cp.color = Color.WHITE then
      { b with material_differential := b.material_differential - pieceVal cp.piece_type }
    else
      { b with material_differential := b.material_differential + pieceVal cp.piece_type }
  | none => b

/-- The castling side effect of move_piece (lines 133-165): when the
selected piece is a king that started on file 4, the four fixed cases
relocate the corresponding rook (Python stores the rook object and then
sets its `current_pos`; the value stored here carries the new position).
Writes happen in source order: rook placed first, old tile cleared
second. -/
def applyCastling (b : Board) (piece : Piece) (before_file file rank : Nat) : Board :=
  if piece.piece_type = PieceType.KING ∧ before_file = 4 then
    if piece.color = Color.WHITE ∧ rank = 0 ∧ file = 6 then
      match tileAt b (7, 0) with
      | some rook =>
        setPiece (setPiece b (5, 0) (some { rook with current_pos := (5, 0) })) (7, 0) none
      | none => b
    else if piece.color = Color.WHITE ∧ rank = 0 ∧ file = 2 then
      match tileAt b (0, 0) with
      | some rook =>
        setPiece (setPiece b (3, 0) (some { rook with current_pos := (3, 0) })) (0, 0) none
      | none => b
    else if piece.color = Color.BLACK ∧ rank = 7 ∧ file = 6 then
      match tileAt b (7, 7) with
      | some rook =>
        setPiece (setPiece b (5, 7) (some { rook with current_pos := (5, 7) })) (7, 7) none
      | none => b
    else if piece.color = Color.BLACK ∧ rank = 7 ∧ file = 2 then
      match tileAt b (0, 7) with
      | some rook =>
        setPiece (setPiece b (3, 7) (some { rook with current_pos := (3, 7) })) (0, 7) none
      | none => b
    else b
  else b

/-- The check re-evaluation of move_piece (lines 167-183): clear all check
indicators, then check and highlight for the enemy color, then for the
mover's color. -/
def checksPhase (b : Board) (moverColor : Color) : Board :=
  let enemy_color := if moverColor = Color.WHITE then Color.BLACK else Color.WHITE
  let b6 := remove_check_indicators b
  let r1 := check_for_checks b6 enemy_color
  let b7 := if r1.2 then highlight_king_in_check r1.1 enemy_color else r1.1
  let r2 := check_for_checks b7 moverColor
  if r2.2 then highlight_king_in_check r2.1 moverColor else r2.1

/-- The moved piece value after the relocation hook (its position and
`has_moved` updated; equals `(pieceMove _ sel (file, rank)).2`). -/
def movedSel (sel : Piece) (file rank : Nat) : Piece :=
  { sel with current_pos := (file, rank), has_moved := true }

/-- Lines 102-131 of move_piece: capture bookkeeping, relocation hook,
the two grid writes in source order (target first, source cleared
second), and the material recomputation. -/
def mpStage1 (b : Board) (file rank : Nat) (sel : Piece) : Board :=
  let bMat := capturedUpdate b (tileAt b (file, rank))
  let moved := pieceMove bMat sel (file, rank)
  let b2 := setPiece moved.1 (file, rank) (some moved.2)
  let b3 := setPiece b2 sel.get_position none
  { b3 with material_differential := calculate_material b3 }

/-- The body of Board.move_piece past its guards (lines 102-199), for
selected piece `sel`: grid and material update (`mpStage1`), the castling
side effect, the check phase, and finally the history append and
index/selection reset. -/
def mpCore (b : Board) (file rank : Nat) (sel : Piece) : Board :=
  let before_move := sel.get_position
  let captured_piece := tileAt b (file, rank)
  let sel' := (pieceMove (capturedUpdate b captured_piece) sel (file, rank)).2
  let b4 := mpStage1 b file rank sel
  let b5 := applyCastling b4 sel' before_move.1 file rank
  let b8 := checksPhase b5 sel'.color
  let entry : MoveRecord :=
    { piece := some sel', from_sq := some before_move, to_sq := some (file, rank),
      captured := captured_piece, fen := board_state b8 none }
  let b9 := { b8 with move_history := b8.move_history ++ [entry] }
  { b9 with current_index := (b9.move_history.length : Int) - 1, selected_piece := none }

/-- Board.move_piece: the `is_curr_pos` guard of lines 99-100 in front of
the move application `mpCore`.  With no selected piece Python would raise
AttributeError at line 102 (modelled as no change; every theorem below
supplies a selection). -/
def move_piece (b : Board) (file rank : Nat) : Board :=
  if ¬is_curr_pos b then b
  else
    match b.selected_piece with
    | none => b
    | some sel => mpCore b file rank sel

/-! ## Board construction (board.py lines 20-91) -/

/-- The pieces placed by `initialize_pieces` (lines 49-81), each with its
starting `(file, rank)`. -/
def startPieces : List Piece :=
  ((List.range 8).map (fun f =>
      { color := Color.WHITE, piece_type := PieceType.PAWN, current_pos := (f, 1) })) ++
  ((List.range 8).map (fun f =>
      { color := Color.BLACK, piece_type := PieceType.PAWN, current_pos := (f, 6) })) ++
  [{ color := Color.WHITE, piece_type := PieceType.KING, current_pos := (4, 0) },
   { color := Color.BLACK, piece_type := PieceType.KING, current_pos := (4, 7) },
   { color := Color.WHITE, piece_type := PieceType.QUEEN, current_pos := (3, 0) },
   { color := Color.BLACK, piece_type := PieceType.QUEEN, current_pos := (3, 7) },
   { color := Color.WHITE, piece_type := PieceType.ROOK, current_pos := (0, 0) },
   { color := Color.WHITE, piece_type := PieceType.ROOK, current_pos := (7, 0) },
   { color := Color.BLACK, piece_type := PieceType.ROOK, current_pos := (0, 7) },
   { color := Color.BLACK, piece_type := PieceType.ROOK, current_pos := (7, 7) },
   { color := Color.WHITE, piece_type := PieceType.KNIGHT, current_pos := (1, 0) },
   { color := Color.WHITE, piece_type := PieceType.KNIGHT, current_pos := (6, 0) },
   { color := Color.BLACK, piece_type := PieceType.KNIGHT, current_pos := (1, 7) },
   { color := Color.BLACK, piece_type := PieceType.KNIGHT, current_pos := (6, 7) },
   { color := Color.WHITE, piece_type := PieceType.BISHOP, current_pos := (2, 0) },
   { color := Color.WHITE, piece_type := PieceType.BISHOP, current_pos := (5, 0) },
   { color := Color.BLACK, piece_type := PieceType.BISHOP, current_pos := (2, 7) },
   { color := Color.BLACK, piece_type := PieceType.BISHOP, current_pos := (5, 7) }]

/-- Board construction (`__init__` plus `initialize_pieces`): fresh tiles,
standard starting placement, and the history seeded with the initial
position's FEN snapshot (lines 83-91). -/
def Board.start : Board :=
  let b0 : Board := { grid := freshGrid }
  let b1 := startPieces.foldl (fun b p => setPiece b p.current_pos (some p)) b0
  { b1 with
      move_history := [{ piece := none, from_sq := none, to_sq := none,
                         captured := none, fen := board_state b1 none }],
      current_index := 0 }

/-- The grid is exactly 8 rows of 8 tiles (true of every board the
program builds; `__init__`, `reset_board` and `load_fen` all construct
it so). -/
def gridShape8 (b : Board) : Prop :=
  b.grid.length = 8 ∧ ∀ r : Nat, r < 8 → ((b.grid[r]?).map List.length) = some 8

instance (b : Board) : Decidable (gridShape8 b) := by
  unfold gridShape8
  infer_instance

/-- The occupant, if any, records exactly the tile's coordinates. -/
def occOK (o : Option Piece) (q : Pos) : Prop :=
  match o with
  | none => True
  | some p => p.current_pos = q

instance occOK.dec : (o : Option Piece) → (q : Pos) → Decidable (occOK o q)
  | none, _ => isTrue trivial
  | some p, q => inferInstanceAs (Decidable (p.current_pos = q))

/-- The Tile-occupant coordinate invariant of the spec (section 3): every
occupied tile's occupant has `current_pos` equal to that tile's
coordinates. -/
def gridConsistent (b : Board) : Prop :=
  ∀ f : Nat, f < 8 → ∀ r : Nat, r < 8 → occOK (tileAt b (f, r)) (f, r)

instance (b : Board) : Decidable (gridConsistent b) := by
  unfold gridConsistent
  infer_instance

/-- All Board fields except the grid, as one tuple. -/
def nonGrid (b : Board) :=
  (b.selected_piece, b.checking_for_checks, b.en_passant_target, b.move_history,
   b.current_index, b.material_differential, b.checkmate, b.stalemate,
   b.mate_color, b.resigned)

/-- `b'` agrees with `b` on every field except possibly the grid. -/
def sameExceptGrid (b b' : Board) : Prop := nonGrid b' = nonGrid b

/-- The net effect of parsing one generated FEN row: walk the rank's
occupants left to right, recreating each piece through `fenPiece` at its
file. -/
def placeOpts (rank : Nat) : Board → List (Option Piece) → Nat → Board
  | b, [], _ => b
  | b, none :: rest, j => placeOpts rank b rest (j + 1)
  | b, some p :: rest, j =>
    placeOpts rank (setPiece b (j, rank) (some (fenPiece p.color p.piece_type j rank)))
      rest (j + 1)

/-- Kind and color of the occupant of a square — the piece-placement
content that FEN serialization preserves. -/
def kindAt (b : Board) (q : Pos) : Option (Color × PieceType) :=
  (tileAt b q).map (fun p => (p.color, p.piece_type))

/-- Signed value of an occupant: positive White, negative Black, zero for
an empty square. -/
def sval : Option Piece → Int
  | none => 0
  | some p => if p.color = Color.WHITE then pieceVal p.piece_type else -pieceVal p.piece_type

/-! ## Concrete pieces and boards used to instantiate the claims -/

def wKnightB1 : Piece :=
  { color := Color.WHITE, piece_type := PieceType.KNIGHT, current_pos := (1, 0) }

def wRookA1 : Piece :=
  { color := Color.WHITE, piece_type := PieceType.ROOK, current_pos := (0, 0) }

def wPawnA2 : Piece :=
  { color := Color.WHITE, piece_type := PieceType.PAWN, current_pos := (0, 1) }

def wKingE1 : Piece :=
  { color := Color.WHITE, piece_type := PieceType.KING, current_pos := (4, 0) }

def bKingE8 : Piece :=
  { color := Color.BLACK, piece_type := PieceType.KING, current_pos := (4, 7) }

def wRookH1 : Piece :=
  { color := Color.WHITE, piece_type := PieceType.ROOK, current_pos := (7, 0) }

def wPawnA8 : Piece :=
  { color := Color.WHITE, piece_type := PieceType.PAWN, current_pos := (0, 7),
    has_moved := true }

/-- The start position with the knight on b1 selected. -/
def bKnightSel : Board := get_piece Board.start wKnightB1

/-- The start position with the rook on a1 selected (a rook with no legal
move at all: both rays are blocked by its own pieces). -/
def bRookSel : Board := get_piece Board.start wRookA1

/-- The start position while the user is browsing one step back in a
two-entry history: `current_index` is not the last index. -/
def bHist : Board :=
  { Board.start with
      move_history := Board.start.move_history ++ Board.start.move_history,
      current_index := 0 }

/-- Place a list of pieces on a fresh grid. -/
def mkBoard (ps : List Piece) : Board :=
  ps.foldl (fun b p => setPiece b p.current_pos (some p)) { grid := freshGrid }

/-- Both kings plus a white pawn that has reached the last rank, with the
differential in sync (its value is the pawn's +1). -/
def bProm : Board :=
  let b0 := mkBoard [wKingE1, bKingE8, wPawnA8]
  { b0 with material_differential := calculate_material b0 }

/-- `bProm` right after the promotion call: a Queen stands on a8 but the
differential still carries the pawn's value. -/
def bStale : Board := promote bProm Color.WHITE 0 7

/-- Both kings on their home squares and the white rook on h1, the white
king selected: White may castle short. -/
def bCastle : Board :=
  { mkBoard [wKingE1, bKingE8, wRookH1] with selected_piece := some wKingE1 }

/-- The start position with the re-entrancy guard flag already set. -/
def bFlag : Board := { Board.start with checking_for_checks := true }

/-- The back rank of a color (rank 0 for White, 7 for Black). -/
def homeRank : Color → Nat
  | Color.WHITE => 0
  | Color.BLACK => 7

/-- King destination file of a castle (6 short, 2 long). -/
def castleKingFile : Bool → Nat
  | true => 6
  | false => 2

/-- Rook origin file of a castle (7 short, 0 long). -/
def castleRookFrom : Bool → Nat
  | true => 7
  | false => 0

/-- Rook destination file of a castle (5 short, 3 long). -/
def castleRookTo : Bool → Nat
  | true => 5
  | false => 3

/-! ## Grid access lemmas -/

theorem setPiece_grid (b : Board) (p : Pos) (v : Option Piece) :
    (setPiece b p v).grid =
      match b.grid[p.2]? with
      | none => b.grid
      | some row =>
        match row[p.1]? with
        | none => b.grid
        | some t => b.grid.set p.2 (row.set p.1 { t with piece_here := v }) := rfl

theorem getTile_setPiece (b : Board) (p : Pos) (v : Option Piece) (q : Pos) :
    getTile (setPiece b p v) q =
      if q = p then (getTile b p).map (fun t => { t with piece_here := v })
      else getTile b q := by
  rcases p with ⟨pf, pr⟩
  rcases q with ⟨qf, qr⟩
  by_cases hq : (qf, qr) = (pf, pr)
  · rw [if_pos hq]
    obtain ⟨h1, h2⟩ := Prod.mk.injEq .. ▸ hq
    subst h1; subst h2
    show getTile (setPiece b (qf, qr) v) (qf, qr) = _
    unfold getTile
    rw [setPiece_grid]
    rcases e1 : b.grid[qr]? with _ | row
    · simp [e1]
    · rcases e2 : row[qf]? with _ | t
      · simp [e1, e2]
      · have hpr : qr < b.grid.length := (List.getElem?_eq_some_iff.mp e1).1
        have hpf : qf < row.length := (List.getElem?_eq_some_iff.mp e2).1
        simp [e1, e2, List.getElem?_set_self hpr, List.getElem?_set_self hpf]
  · rw [if_neg hq]
    unfold getTile
    rw [setPiece_grid]
    rcases e1 : b.grid[pr]? with _ | row
    · simp [e1]
    · rcases e2 : row[pf]? with _ | t
      · simp [e1, e2]
      · by_cases hr : qr = pr
        · subst hr
          have hf : qf ≠ pf := fun hf => hq (by rw [hf])
          have hpr : qr < b.grid.length := (List.getElem?_eq_some_iff.mp e1).1
          simp [e1, e2, List.getElem?_set_self hpr, List.getElem?_set_ne (fun h => hf h.symm)]
        · simp [e1, e2, List.getElem?_set_ne (fun h => hr h.symm)]

theorem tileAt_setPiece (b : Board) (p : Pos) (v : Option Piece) (q : Pos) :
    tileAt (setPiece b p v) q =
      if q = p then (if (getTile b p).isSome then v else none)
      else tileAt b q := by
  unfold tileAt
  rw [getTile_setPiece]
  by_cases hq : q = p
  · rw [if_pos hq, if_pos hq]
    rcases getTile b p with _ | t <;> simp
  · rw [if_neg hq, if_neg hq]

theorem tileAt_setPiece_same {b : Board} {p : Pos} (h : (getTile b p).isSome) (v : Option Piece) :
    tileAt (setPiece b p v) p = v := by
  rw [tileAt_setPiece, if_pos rfl, if_pos h]

theorem tileAt_setPiece_other {b : Board} {p q : Pos} (h : q ≠ p) (v : Option Piece) :
    tileAt (setPiece b p v) q = tileAt b q := by
  rw [tileAt_setPiece, if_neg h]

theorem isSome_getTile_of_tileAt {b : Board} {p : Pos} {x : Piece}
    (h : tileAt b p = some x) : (getTile b p).isSome := by
  unfold tileAt at h
  rcases e : getTile b p with _ | t
  · rw [e] at h; simp [Option.bind] at h
  · rfl

/-- Non-grid fields of `setPiece` are untouched. -/
theorem setPiece_selected (b : Board) (p : Pos) (v : Option Piece) :
    (setPiece b p v).selected_piece = b.selected_piece := rfl

theorem setPiece_grid_length (b : Board) (p : Pos) (v : Option Piece) :
    (setPiece b p v).grid.length = b.grid.length := by
  rw [setPiece_grid]
  rcases e1 : b.grid[p.2]? with _ | row
  · simp [e1]
  · rcases e2 : row[p.1]? with _ | t
    · simp [e1, e2]
    · simp [e1, e2, List.length_set]

theorem setPiece_row_length (b : Board) (p : Pos) (v : Option Piece) (r : Nat) :
    ((setPiece b p v).grid[r]?).map List.length = (b.grid[r]?).map List.length := by
  rw [setPiece_grid]
  rcases e1 : b.grid[p.2]? with _ | row
  · simp [e1]
  · rcases e2 : row[p.1]? with _ | t
    · simp [e1, e2]
    · simp only [e1, e2]
      rw [List.getElem?_set]
      split
      · rename_i h
        subst h
        split
        · simp [e1, List.length_set]
        · rename_i h2
          exact absurd (List.getElem?_eq_some_iff.mp e1).1 h2
      · rfl

/-- Two boards with identically shaped grids, equal tiles everywhere and
equal remaining fields are equal. -/
theorem board_ext (b b' : Board)
    (hlen : b.grid.length = b'.grid.length)
    (hrow : ∀ r : Nat, (b.grid[r]?).map List.length = (b'.grid[r]?).map List.length)
    (ht : ∀ q, getTile b q = getTile b' q)
    (h1 : b.selected_piece = b'.selected_piece)
    (h2 : b.checking_for_checks = b'.checking_for_checks)
    (h3 : b.en_passant_target = b'.en_passant_target)
    (h4 : b.move_history = b'.move_history)
    (h5 : b.current_index = b'.current_index)
    (h6 : b.material_differential = b'.material_differential)
    (h7 : b.checkmate = b'.checkmate)
    (h8 : b.stalemate = b'.stalemate)
    (h9 : b.mate_color = b'.mate_color)
    (h10 : b.resigned = b'.resigned) : b = b' := by
  have hg : b.grid = b'.grid := by
    apply List.ext_getElem?
    intro r
    rcases e : b.grid[r]? with _ | row
    · have := hrow r
      rw [e] at this
      rcases e' : b'.grid[r]? with _ | row'
      · rfl
      · rw [e'] at this; simp at this
    · have := hrow r
      rw [e] at this
      rcases e' : b'.grid[r]? with _ | row'
      · rw [e'] at this; simp at this
      · rw [e'] at this
        have : row = row' := by
          apply List.ext_getElem?
          intro f
          have := ht (f, r)
          unfold getTile at this
          simpa [e, e'] using this
        rw [this]
  cases b; cases b'
  simp_all

theorem setPiece_setPiece_same (b : Board) (p : Pos) (v w : Option Piece) :
    setPiece (setPiece b p v) p w = setPiece b p w := by
  refine board_ext _ _ ?_ ?_ ?_ rfl rfl rfl rfl rfl rfl rfl rfl rfl rfl
  · simp [setPiece_grid_length]
  · intro r; simp [setPiece_row_length]
  · intro q
    simp only [getTile_setPiece]
    by_cases hq : q = p
    · simp only [hq, if_pos rfl]
      cases getTile b p <;> rfl
    · simp [hq]

theorem setPiece_comm (b : Board) {p q : Pos} (h : p ≠ q) (v w : Option Piece) :
    setPiece (setPiece b p v) q w = setPiece (setPiece b q w) p v := by
  refine board_ext _ _ ?_ ?_ ?_ rfl rfl rfl rfl rfl rfl rfl rfl rfl rfl
  · simp [setPiece_grid_length]
  · intro r; simp [setPiece_row_length]
  · intro s
    simp only [getTile_setPiece]
    by_cases hsq : s = q <;> by_cases hsp : s = p
    · exact absurd (hsp.symm.trans hsq) h
    · subst hsq; simp [hsp, h]
    · subst hsp; simp [hsq, h]
    · simp [hsq, hsp]

theorem setPiece_tileAt_self (b : Board) (p : Pos) :
    setPiece b p (tileAt b p) = b := by
  refine board_ext _ _ ?_ ?_ ?_ rfl rfl rfl rfl rfl rfl rfl rfl rfl rfl
  · simp [setPiece_grid_length]
  · intro r; simp [setPiece_row_length]
  · intro q
    simp only [getTile_setPiece]
    by_cases hq : q = p
    · subst hq
      simp only [if_pos rfl]
      unfold tileAt
      cases getTile b q <;> rfl
    · simp [hq]

/-! ## Grid shape and the tile-coordinate invariant -/

theorem getTile_isSome_of_shape {b : Board} (h : gridShape8 b) {f r : Nat}
    (hf : f < 8) (hr : r < 8) : (getTile b (f, r)).isSome := by
  have h2 := h.2 r hr
  unfold getTile
  rcases e : b.grid[r]? with _ | row
  · rw [e] at h2; simp at h2
  · rw [e] at h2
    have h2' : row.length = 8 := by simpa using h2
    have : f < row.length := by rw [h2']; exact hf
    simp [List.getElem?_eq_some_iff.mpr ⟨this, rfl⟩]

theorem gridShape8_setPiece {b : Board} (h : gridShape8 b) (p : Pos) (v : Option Piece) :
    gridShape8 (setPiece b p v) := by
  constructor
  · rw [setPiece_grid_length]; exact h.1
  · intro r hr
    rw [setPiece_row_length]; exact h.2 r hr

theorem gridConsistent.pos_eq {b : Board} (h : gridConsistent b) {f r : Nat} {p : Piece}
    (hf : f < 8) (hr : r < 8) (e : tileAt b (f, r) = some p) : p.current_pos = (f, r) := by
  have := h f hf r hr
  rw [e] at this
  exact this

theorem gridConsistent_setPiece {b : Board} (h : gridConsistent b) {p : Pos}
    {v : Option Piece} (hv : occOK v p) : gridConsistent (setPiece b p v) := by
  intro f hf r hr
  rw [tileAt_setPiece]
  by_cases hq : ((f, r) : Pos) = p
  · rw [if_pos hq]
    by_cases hs : (getTile b p).isSome
    · rw [if_pos hs]; exact hq ▸ hv
    · rw [if_neg hs]; trivial
  · rw [if_neg hq]
    exact h f hf r hr

/-! ## The display-marker mutations preserve occupancy -/

theorem updTile_grid (b : Board) (p : Pos) (g : Tile → Tile) :
    (updTile b p g).grid =
      match b.grid[p.2]? with
      | none => b.grid
      | some row =>
        match row[p.1]? with
        | none => b.grid
        | some t => b.grid.set p.2 (row.set p.1 (g t)) := rfl

theorem getTile_updTile (b : Board) (p : Pos) (g : Tile → Tile) (q : Pos) :
    getTile (updTile b p g) q =
      if q = p then (getTile b p).map g else getTile b q := by
  rcases p with ⟨pf, pr⟩
  rcases q with ⟨qf, qr⟩
  by_cases hq : (qf, qr) = (pf, pr)
  · rw [if_pos hq]
    obtain ⟨h1, h2⟩ := Prod.mk.injEq .. ▸ hq
    subst h1; subst h2
    show getTile (updTile b (qf, qr) g) (qf, qr) = _
    unfold getTile
    rw [updTile_grid]
    rcases e1 : b.grid[qr]? with _ | row
    · simp [e1]
    · rcases e2 : row[qf]? with _ | t
      · simp [e1, e2]
      · have hpr : qr < b.grid.length := (List.getElem?_eq_some_iff.mp e1).1
        have hpf : qf < row.length := (List.getElem?_eq_some_iff.mp e2).1
        simp [e1, e2, List.getElem?_set_self hpr, List.getElem?_set_self hpf]
  · rw [if_neg hq]
    unfold getTile
    rw [updTile_grid]
    rcases e1 : b.grid[pr]? with _ | row
    · simp [e1]
    · rcases e2 : row[pf]? with _ | t
      · simp [e1, e2]
      · by_cases hr : qr = pr
        · subst hr
          have hf : qf ≠ pf := fun hf => hq (by rw [hf])
          have hpr : qr < b.grid.length := (List.getElem?_eq_some_iff.mp e1).1
          simp [e1, e2, List.getElem?_set_self hpr, List.getElem?_set_ne (fun h => hf h.symm)]
        · simp [e1, e2, List.getElem?_set_ne (fun h => hr h.symm)]

theorem updTile_grid_length (b : Board) (p : Pos) (g : Tile → Tile) :
    (updTile b p g).grid.length = b.grid.length := by
  rw [updTile_grid]
  rcases e1 : b.grid[p.2]? with _ | row
  · simp [e1]
  · rcases e2 : row[p.1]? with _ | t
    · simp [e1, e2]
    · simp [e1, e2, List.length_set]

theorem updTile_row_length (b : Board) (p : Pos) (g : Tile → Tile) (r : Nat) :
    (((updTile b p g).grid[r]?).map List.length) = ((b.grid[r]?).map List.length) := by
  rw [updTile_grid]
  rcases e1 : b.grid[p.2]? with _ | row
  · simp [e1]
  · rcases e2 : row[p.1]? with _ | t
    · simp [e1, e2]
    · simp only [e1, e2]
      rw [List.getElem?_set]
      split
      · rename_i h
        subst h
        split
        · simp [e1, List.length_set]
        · rename_i h2
          exact absurd (List.getElem?_eq_some_iff.mp e1).1 h2
      · rfl

theorem tileAt_set_check_at (b : Board) (p : Pos) (q : Pos) :
    tileAt (set_check_at b p) q = tileAt b q := by
  unfold tileAt set_check_at
  rw [getTile_updTile]
  by_cases hq : q = p
  · subst hq
    rw [if_pos rfl]
    cases getTile b q <;> rfl
  · rw [if_neg hq]

theorem gridShape8_set_check_at {b : Board} (h : gridShape8 b) (p : Pos) :
    gridShape8 (set_check_at b p) := by
  constructor
  · rw [set_check_at, updTile_grid_length]; exact h.1
  · intro r hr
    rw [set_check_at, updTile_row_length]; exact h.2 r hr

theorem gridConsistent_set_check_at {b : Board} (h : gridConsistent b) (p : Pos) :
    gridConsistent (set_check_at b p) := by
  intro f hf r hr
  rw [tileAt_set_check_at]
  exact h f hf r hr

theorem getTile_rci (b : Board) (q : Pos) :
    getTile (remove_check_indicators b) q =
      (getTile b q).map (fun t => { t with check_ind := false }) := by
  unfold remove_check_indicators getTile
  simp only [List.getElem?_map]
  rcases e : b.grid[q.2]? with _ | row
  · simp [e]
  · simp [e, List.getElem?_map]

theorem tileAt_rci (b : Board) (q : Pos) :
    tileAt (remove_check_indicators b) q = tileAt b q := by
  unfold tileAt
  rw [getTile_rci]
  cases getTile b q <;> rfl

theorem gridShape8_rci {b : Board} (h : gridShape8 b) :
    gridShape8 (remove_check_indicators b) := by
  constructor
  · simpa [remove_check_indicators] using h.1
  · intro r hr
    have h2 := h.2 r hr
    simp only [remove_check_indicators, List.getElem?_map]
    rcases e : b.grid[r]? with _ | row
    · rw [e] at h2; simp at h2
    · rw [e] at h2
      simpa using h2

theorem gridConsistent_rci {b : Board} (h : gridConsistent b) :
    gridConsistent (remove_check_indicators b) := by
  intro f hf r hr
  rw [tileAt_rci]
  exact h f hf r hr

/-! ## Frame: check evaluation touches nothing but the grid and (netted
out) the guard flag -/

theorem sameExceptGrid.refl (b : Board) : sameExceptGrid b b := rfl

theorem sameExceptGrid.trans {a b c : Board}
    (h1 : sameExceptGrid a b) (h2 : sameExceptGrid b c) : sameExceptGrid a c :=
  Eq.trans (h2 : nonGrid c = nonGrid b) (h1 : nonGrid b = nonGrid a)

theorem seg_setPiece (b : Board) (p : Pos) (v : Option Piece) :
    sameExceptGrid b (setPiece b p v) := rfl

theorem seg_rci (b : Board) : sameExceptGrid b (remove_check_indicators b) := rfl

theorem seg_set_check_at (b : Board) (p : Pos) :
    sameExceptGrid b (set_check_at b p) := rfl

theorem seg_cimicA (chk : Board → Color → Board × Bool)
    (hchk : ∀ b c, sameExceptGrid b (chk b c).1) (b : Board) (p : Piece) (m : Pos) :
    sameExceptGrid b (check_if_move_into_checkA chk b p m).1 := by
  unfold check_if_move_into_checkA
  refine ((((sameExceptGrid.refl b).trans (seg_setPiece ..)).trans
    (seg_setPiece ..)).trans (hchk _ _)).trans ((seg_setPiece ..).trans (seg_setPiece ..))

theorem seg_legalLoop (chk : Board → Color → Board × Bool)
    (hchk : ∀ b c, sameExceptGrid b (chk b c).1) (p : Piece) :
    ∀ (ms : List Pos) (b : Board) (acc : List Pos),
      sameExceptGrid b (get_all_legalLoop chk p b ms acc).1
  | [], b, acc => sameExceptGrid.refl b
  | m :: rest, b, acc => by
    unfold get_all_legalLoop
    exact (seg_cimicA chk hchk b p m).trans (seg_legalLoop chk hchk p rest _ _)

theorem seg_enemyLoop (chk : Board → Color → Board × Bool)
    (hchk : ∀ b c, sameExceptGrid b (chk b c).1) (color : Color) :
    ∀ (sqs : List Pos) (b : Board) (acc : List Pos),
      sameExceptGrid b (enemyLoop chk color b sqs acc).1
  | [], b, acc => sameExceptGrid.refl b
  | fr :: rest, b, acc => by
    unfold enemyLoop
    rcases e : tileAt b fr with _ | piece
    · exact seg_enemyLoop chk hchk color rest b acc
    · by_cases hc : piece.color = color
      · simp only [if_pos hc]
        exact seg_enemyLoop chk hchk color rest b acc
      · simp only [if_neg hc]
        refine sameExceptGrid.trans ?_ (seg_enemyLoop chk hchk color rest _ _)
        exact seg_legalLoop chk hchk piece _ b []

theorem seg_checkF : ∀ (fuel : Nat) (b : Board) (color : Color),
    sameExceptGrid b (check_for_checksF fuel b color).1
  | 0, b, _ => sameExceptGrid.refl b
  | fuel + 1, b, color => by
    unfold check_for_checksF
    by_cases hflag : b.checking_for_checks
    · simp only [if_pos hflag]
      exact sameExceptGrid.refl b
    · simp only [if_neg hflag]
      rcases e : find_king { b with checking_for_checks := true } color with _ | king_pos
      · dsimp only
        unfold sameExceptGrid nonGrid
        simp at hflag
        simp [hflag]
      · dsimp only
        have hseg := seg_enemyLoop (check_for_checksF fuel)
          (fun b c => seg_checkF fuel b c) color allSquares
          { b with checking_for_checks := true } []
        unfold sameExceptGrid nonGrid at hseg ⊢
        simp only [Prod.mk.injEq] at hseg ⊢
        simp at hflag
        obtain ⟨s1, s2, s3, s4, s5, s6, s7, s8, s9, s10⟩ := hseg
        exact ⟨s1, hflag.symm, s3, s4, s5, s6, s7, s8, s9, s10⟩

theorem seg_check_for_checks (b : Board) (color : Color) :
    sameExceptGrid b (check_for_checks b color).1 :=
  seg_checkF 2 b color

theorem seg_highlight (b : Board) (color : Color) :
    sameExceptGrid b (highlight_king_in_check b color) := by
  simp only [highlight_king_in_check]
  by_cases hc : (check_for_checks b color).2
  · rw [if_pos hc]
    rcases e : find_king (check_for_checks b color).1 color with _ | kp
    · dsimp only
      exact seg_check_for_checks b color
    · dsimp only
      exact (seg_check_for_checks b color).trans (seg_set_check_at _ _)
  · rw [if_neg hc]
    exact seg_check_for_checks b color

/-- One check-and-highlight step of `move_piece` lines 176-183. -/
theorem seg_checkStep (x : Board) (d : Color) :
    sameExceptGrid x
      (if (check_for_checks x d).2 then
        highlight_king_in_check (check_for_checks x d).1 d
      else (check_for_checks x d).1) := by
  by_cases h : (check_for_checks x d).2
  · rw [if_pos h]
    exact (seg_check_for_checks x d).trans (seg_highlight _ d)
  · rw [if_neg h]
    exact seg_check_for_checks x d

theorem seg_checksPhase (b : Board) (c : Color) :
    sameExceptGrid b (checksPhase b c) := by
  simp only [checksPhase]
  exact (seg_rci b).trans ((seg_checkStep _ _).trans (seg_checkStep _ _))

/-! ## Rollback: under the tile-coordinate invariant, check evaluation
restores the board exactly on every return path -/

theorem gridConsistent_flag {b : Board} (h : gridConsistent b) (x : Bool) :
    gridConsistent { b with checking_for_checks := x } := h

theorem occOK_none (q : Pos) : occOK none q := by
  show True
  exact trivial

theorem occOK_some {p : Piece} {q : Pos} (h : p.current_pos = q) : occOK (some p) q := by
  show p.current_pos = q
  exact h

theorem gridConsistent_speculate {b : Board} (hg : gridConsistent b) (p : Piece) (m : Pos) :
    gridConsistent (speculate b p m) :=
  gridConsistent_setPiece (gridConsistent_setPiece hg (occOK_none _)) (occOK_some rfl)

/-- check_if_move_into_check restores the exact input board whenever the
moved piece really occupies its recorded square and the nested check
evaluation preserves boards. -/
theorem cimicA_restore (chk : Board → Color → Board × Bool)
    (hchk : ∀ b c, gridConsistent b → (chk b c).1 = b)
    (b : Board) (p : Piece) (m : Pos)
    (hg : gridConsistent b) (hocc : tileAt b p.current_pos = some p) :
    (check_if_move_into_checkA chk b p m).1 = b := by
  show setPiece (setPiece (chk (speculate b p m) p.color).1 p.current_pos (some p)) m
      (tileAt b m) = b
  rw [hchk _ _ (gridConsistent_speculate hg p m)]
  unfold speculate
  by_cases hm : m = p.current_pos
  · subst hm
    rw [setPiece_setPiece_same, setPiece_setPiece_same, setPiece_setPiece_same]
    exact setPiece_tileAt_self b p.current_pos
  · rw [setPiece_comm _ hm]
    rw [setPiece_setPiece_same, setPiece_setPiece_same]
    conv_lhs => rw [← hocc]
    rw [setPiece_tileAt_self, setPiece_tileAt_self]

theorem legalLoop_spec (chk : Board → Color → Board × Bool)
    (hchk : ∀ b c, gridConsistent b → (chk b c).1 = b)
    (b : Board) (p : Piece) (hg : gridConsistent b)
    (hocc : tileAt b p.current_pos = some p) :
    ∀ (ms acc : List Pos),
      get_all_legalLoop chk p b ms acc =
        (b, acc ++ ms.filter (fun m => !(check_if_move_into_checkA chk b p m).2))
  | [], acc => by simp [get_all_legalLoop]
  | m :: rest, acc => by
    unfold get_all_legalLoop
    dsimp only
    rw [cimicA_restore chk hchk b p m hg hocc]
    rw [legalLoop_spec chk hchk b p hg hocc rest _]
    by_cases hc : (check_if_move_into_checkA chk b p m).2
    · simp [hc, List.filter_cons]
    · simp [hc, List.filter_cons]

theorem get_all_legalA_spec (chk : Board → Color → Board × Bool)
    (hchk : ∀ b c, gridConsistent b → (chk b c).1 = b)
    (b : Board) (p : Piece) (hg : gridConsistent b)
    (hocc : tileAt b p.current_pos = some p) :
    get_all_legalA chk b p =
      (b, (get_moves b p).filter (fun m => !(check_if_move_into_checkA chk b p m).2)) := by
  unfold get_all_legalA
  rw [legalLoop_spec chk hchk b p hg hocc]
  simp

theorem mem_allSquares {q : Pos} (h : q ∈ allSquares) : q.1 < 8 ∧ q.2 < 8 := by
  unfold allSquares at h
  simp only [List.mem_flatten, List.mem_map] at h
  obtain ⟨l, ⟨r, hr, rfl⟩, hq⟩ := h
  simp only [List.mem_map, List.mem_range] at hq hr
  obtain ⟨f, hf, rfl⟩ := hq
  exact ⟨hf, hr⟩

theorem enemyLoop_preserve (chk : Board → Color → Board × Bool)
    (hchk : ∀ b c, gridConsistent b → (chk b c).1 = b)
    (color : Color) (b : Board) (hg : gridConsistent b) :
    ∀ (sqs : List Pos), (∀ q ∈ sqs, q.1 < 8 ∧ q.2 < 8) →
      ∀ acc, (enemyLoop chk color b sqs acc).1 = b
  | [], _, acc => rfl
  | fr :: rest, hs, acc => by
    unfold enemyLoop
    rcases e : tileAt b fr with _ | piece
    · exact enemyLoop_preserve chk hchk color b hg rest
        (fun q hq => hs q (List.mem_cons_of_mem _ hq)) acc
    · by_cases hc : piece.color = color
      · simp only [if_pos hc]
        exact enemyLoop_preserve chk hchk color b hg rest
          (fun q hq => hs q (List.mem_cons_of_mem _ hq)) acc
      · simp only [if_neg hc]
        have hb := hs fr (List.mem_cons_self _ _)
        have hpos : piece.current_pos = fr := hg.pos_eq hb.1 hb.2 e
        have hocc : tileAt b piece.current_pos = some piece := by rw [hpos]; exact e
        rw [get_all_legalA_spec chk hchk b piece hg hocc]
        exact enemyLoop_preserve chk hchk color b hg rest
          (fun q hq => hs q (List.mem_cons_of_mem _ hq)) _

theorem get_all_enemy_movesA_preserve (chk : Board → Color → Board × Bool)
    (hchk : ∀ b c, gridConsistent b → (chk b c).1 = b)
    (b : Board) (color : Color) (hg : gridConsistent b) :
    (get_all_enemy_movesA chk b color).1 = b :=
  enemyLoop_preserve chk hchk color b hg allSquares (fun q hq => mem_allSquares hq) []

theorem checkF_preserve : ∀ (fuel : Nat) (b : Board) (color : Color),
    gridConsistent b → (check_for_checksF fuel b color).1 = b
  | 0, _, _, _ => rfl
  | fuel + 1, b, color, hg => by
    unfold check_for_checksF
    by_cases hflag : b.checking_for_checks
    · simp [hflag]
    · simp only [if_neg hflag]
      have hone : b.checking_for_checks = false := by simpa using hflag
      rcases e : find_king { b with checking_for_checks := true } color with _ | kp
      · dsimp only
        cases b
        simp_all
      · dsimp only
        rw [get_all_enemy_movesA_preserve (check_for_checksF fuel)
          (fun b c hgc => checkF_preserve fuel b c hgc) _ color
          (gridConsistent_flag hg true)]
        cases b
        simp_all

/-- check_for_checks gives the board back unchanged (guard flag
included). -/
theorem check_for_checks_preserve (b : Board) (color : Color)
    (hg : gridConsistent b) : (check_for_checks b color).1 = b :=
  checkF_preserve 2 b color hg

/-! ## Fuel stability: the guard flag stops all deeper nesting, so every
fuel of at least 1 computes the same result — fuel 2 in the entry points
reproduces every Python execution -/

theorem checkF_flag_true : ∀ (fuel : Nat) (b : Board) (c : Color),
    b.checking_for_checks = true → check_for_checksF fuel b c = (b, false)
  | 0, _, _, _ => rfl
  | _ + 1, b, c, h => by
    unfold check_for_checksF
    rw [if_pos h]

theorem speculate_flag (b : Board) (p : Piece) (m : Pos) :
    (speculate b p m).checking_for_checks = b.checking_for_checks := rfl

theorem cimicA_congr2 (chk chk' : Board → Color → Board × Bool)
    (hchk : ∀ b c, b.checking_for_checks = true → chk b c = (b, false))
    (hchk' : ∀ b c, b.checking_for_checks = true → chk' b c = (b, false))
    (b : Board) (p : Piece) (m : Pos) (hb : b.checking_for_checks = true) :
    check_if_move_into_checkA chk b p m = check_if_move_into_checkA chk' b p m := by
  unfold check_if_move_into_checkA
  dsimp only
  rw [hchk _ _ ((speculate_flag b p m).trans hb), hchk' _ _ ((speculate_flag b p m).trans hb)]

theorem cimicA_flag (chk : Board → Color → Board × Bool)
    (hchk : ∀ b c, b.checking_for_checks = true → chk b c = (b, false))
    (b : Board) (p : Piece) (m : Pos) (hb : b.checking_for_checks = true) :
    (check_if_move_into_checkA chk b p m).1.checking_for_checks = true := by
  unfold check_if_move_into_checkA
  dsimp only
  rw [hchk _ _ ((speculate_flag b p m).trans hb)]
  exact hb

theorem legalLoop_congr (chk chk' : Board → Color → Board × Bool)
    (hchk : ∀ b c, b.checking_for_checks = true → chk b c = (b, false))
    (hchk' : ∀ b c, b.checking_for_checks = true → chk' b c = (b, false))
    (p : Piece) : ∀ (ms : List Pos) (b : Board) (acc : List Pos),
      b.checking_for_checks = true →
      get_all_legalLoop chk p b ms acc = get_all_legalLoop chk' p b ms acc
  | [], _, _, _ => rfl
  | m :: rest, b, acc, hb => by
    unfold get_all_legalLoop
    rw [cimicA_congr2 chk chk' hchk hchk' b p m hb]
    exact legalLoop_congr chk chk' hchk hchk' p rest _ _
      (cimicA_flag chk' hchk' b p m hb)

theorem legalLoop_flag (chk : Board → Color → Board × Bool)
    (hchk : ∀ b c, b.checking_for_checks = true → chk b c = (b, false))
    (p : Piece) : ∀ (ms : List Pos) (b : Board) (acc : List Pos),
      b.checking_for_checks = true →
      (get_all_legalLoop chk p b ms acc).1.checking_for_checks = true
  | [], _, _, hb => hb
  | m :: rest, b, acc, hb => by
    unfold get_all_legalLoop
    exact legalLoop_flag chk hchk p rest _ _ (cimicA_flag chk hchk b p m hb)

theorem enemyLoop_congr (chk chk' : Board → Color → Board × Bool)
    (hchk : ∀ b c, b.checking_for_checks = true → chk b c = (b, false))
    (hchk' : ∀ b c, b.checking_for_checks = true → chk' b c = (b, false))
    (color : Color) : ∀ (sqs : List Pos) (b : Board) (acc : List Pos),
      b.checking_for_checks = true →
      enemyLoop chk color b sqs acc = enemyLoop chk' color b sqs acc
  | [], _, _, _ => rfl
  | fr :: rest, b, acc, hb => by
    unfold enemyLoop
    rcases e : tileAt b fr with _ | piece
    · exact enemyLoop_congr chk chk' hchk hchk' color rest b acc hb
    · by_cases hc : piece.color = color
      · simp only [if_pos hc]
        exact enemyLoop_congr chk chk' hchk hchk' color rest b acc hb
      · simp only [if_neg hc]
        show (let res := get_all_legalA chk b piece
              enemyLoop chk color res.1 rest (dedupAppend acc res.2)) = _
        have hl : get_all_legalA chk b piece = get_all_legalA chk' b piece :=
          legalLoop_congr chk chk' hchk hchk' piece _ b [] hb
        rw [hl]
        exact enemyLoop_congr chk chk' hchk hchk' color rest _ _
          (legalLoop_flag chk' hchk' piece _ b [] hb)

/-- Any two successor fuels agree: the re-entrancy guard makes every
nested `check_for_checks` return immediately, so the recursion never
consumes more than one unit of fuel. -/
theorem checkF_succ_congr (n m : Nat) (b : Board) (c : Color) :
    check_for_checksF (n + 1) b c = check_for_checksF (m + 1) b c := by
  unfold check_for_checksF
  by_cases hflag : b.checking_for_checks
  · rw [if_pos hflag, if_pos hflag]
  · rw [if_neg hflag, if_neg hflag]
    dsimp only
    rcases e : find_king { b with checking_for_checks := true } c with _ | kp
    · simp only [e]
    · simp only [e]
      have : get_all_enemy_movesA (check_for_checksF n) { b with checking_for_checks := true } c =
          get_all_enemy_movesA (check_for_checksF m) { b with checking_for_checks := true } c :=
        enemyLoop_congr (check_for_checksF n) (check_for_checksF m)
          (checkF_flag_true n) (checkF_flag_true m) c allSquares _ [] rfl
      rw [this]

/-- The fuel choice in the entry points is certified: every positive fuel
computes what `check_for_checks` computes. -/
theorem check_for_checksF_stable (n : Nat) (b : Board) (c : Color) :
    check_for_checksF (n + 1) b c = check_for_checks b c :=
  checkF_succ_congr n 1 b c

/-! ## FEN round trip: characters -/

theorem fenPieceAt_pieceChar (p : Piece) (f r : Nat) :
    fenPieceAt (pieceChar p) f r = some (fenPiece p.color p.piece_type f r) := by
  rcases p with ⟨c, ty, pos, hm, pr⟩
  cases c <;> cases ty <;> rfl

theorem pieceChar_not_digit (p : Piece) : (pieceChar p).isDigit = false := by
  rcases p with ⟨c, ty, pos, hm, pr⟩
  cases c <;> cases ty <;> rfl

theorem pieceChar_ne_slash (p : Piece) : pieceChar p ≠ '/' := by
  rcases p with ⟨c, ty, pos, hm, pr⟩
  cases c <;> cases ty <;> simp [pieceChar, typeChar, typeCharUp]

theorem digitChar_isDigit {k : Nat} (h : k ≤ 9) : (digitChar k).isDigit = true := by
  interval_cases k <;> decide

theorem digitChar_toNat {k : Nat} (h : k ≤ 9) : (digitChar k).toNat - 48 = k := by
  interval_cases k <;> decide

theorem digitChar_ne_slash {k : Nat} (h : k ≤ 9) : digitChar k ≠ '/' := by
  interval_cases k <;> decide

theorem fenRowAux_no_slash : ∀ (l : List (Option Piece)) (c : Nat),
    c + l.length ≤ 8 → '/' ∉ fenRowAux l c
  | [], 0, _ => by simp [fenRowAux]
  | [], c + 1, h => by
    simp only [fenRowAux, List.mem_singleton]
    exact fun hx => digitChar_ne_slash (k := c + 1) (by omega) hx.symm
  | none :: rest, c, h => by
    simp only [fenRowAux]
    exact fenRowAux_no_slash rest (c + 1) (by simp at h; omega)
  | some p :: rest, 0, h => by
    simp only [fenRowAux, List.mem_cons]
    rintro (hx | hx)
    · exact pieceChar_ne_slash p hx.symm
    · exact fenRowAux_no_slash rest 0 (by simp at h; omega) hx
  | some p :: rest, c + 1, h => by
    simp only [fenRowAux, List.mem_cons]
    rintro (hx | hx | hx)
    · exact digitChar_ne_slash (k := c + 1) (by simp at h; omega) hx.symm
    · exact pieceChar_ne_slash p hx.symm
    · exact fenRowAux_no_slash rest 0 (by simp at h; omega) hx

/-! ## FEN round trip: splitting the joined rows -/

theorem splitSlash_no_slash : ∀ (r : List Char), '/' ∉ r → splitSlash r = [r]
  | [], _ => rfl
  | c :: rest, h => by
    have hc : ¬c = '/' := fun hc => h (hc ▸ List.mem_cons_self _ _)
    have hrest : '/' ∉ rest := fun hx => h (List.mem_cons_of_mem _ hx)
    simp only [splitSlash, if_neg hc, splitSlash_no_slash rest hrest]

theorem splitSlash_append : ∀ (r l : List Char), '/' ∉ r →
    splitSlash (r ++ '/' :: l) = r :: splitSlash l
  | [], l, _ => by simp [splitSlash]
  | c :: rest, l, h => by
    have hc : ¬c = '/' := fun hc => h (hc ▸ List.mem_cons_self _ _)
    have hrest : '/' ∉ rest := fun hx => h (List.mem_cons_of_mem _ hx)
    simp only [List.cons_append, splitSlash, if_neg hc]
    have ih := splitSlash_append rest l hrest
    simp only [List.append_eq] at ih ⊢
    rw [ih]

theorem splitSlash_joinSlash : ∀ (rs : List (List Char)), rs ≠ [] →
    (∀ r ∈ rs, '/' ∉ r) → splitSlash (joinSlash rs) = rs
  | [], h, _ => absurd rfl h
  | [r], _, hs => by
    simp only [joinSlash]
    exact splitSlash_no_slash r (hs r (List.mem_singleton.mpr rfl))
  | r :: r2 :: rest, _, hs => by
    show splitSlash (r ++ '/' :: joinSlash (r2 :: rest)) = _
    rw [splitSlash_append r _ (hs r (List.mem_cons_self _ _))]
    rw [splitSlash_joinSlash (r2 :: rest) (by simp)
      (fun x hx => hs x (List.mem_cons_of_mem _ hx))]

/-! ## FEN round trip: parsing a generated row places exactly the row's
pieces -/

theorem parse_fenRowAux (rank : Nat) : ∀ (l : List (Option Piece)) (c k : Nat) (b : Board),
    c + l.length ≤ 8 →
    parseRowChars rank b (fenRowAux l c) k = placeOpts rank b l (k + c)
  | [], 0, k, b, _ => rfl
  | [], c + 1, k, b, h => by
    simp only [fenRowAux, parseRowChars, digitChar_isDigit (show c + 1 ≤ 9 by omega),
      if_true, digitChar_toNat (show c + 1 ≤ 9 by omega)]
    rfl
  | none :: rest, c, k, b, h => by
    simp only [fenRowAux]
    rw [parse_fenRowAux rank rest (c + 1) k b (by simp only [List.length_cons] at h; omega)]
    show placeOpts rank b rest (k + (c + 1)) = placeOpts rank b rest (k + c + 1)
    rw [Nat.add_assoc]
  | some p :: rest, 0, k, b, h => by
    simp only [fenRowAux, parseRowChars, pieceChar_not_digit, Bool.false_eq_true, if_false,
      fenPieceAt_pieceChar]
    rw [parse_fenRowAux rank rest 0 (k + 1) _ (by simp only [List.length_cons] at h; omega)]
    show placeOpts rank _ rest (k + 1 + 0) = placeOpts rank b (some p :: rest) (k + 0)
    rw [Nat.add_zero, Nat.add_zero]
    rfl
  | some p :: rest, c + 1, k, b, h => by
    simp only [fenRowAux, parseRowChars, digitChar_isDigit (show c + 1 ≤ 9 by omega),
      if_true, digitChar_toNat (show c + 1 ≤ 9 by omega), pieceChar_not_digit,
      Bool.false_eq_true, if_false, fenPieceAt_pieceChar]
    rw [parse_fenRowAux rank rest 0 (k + (c + 1) + 1) _
      (by simp only [List.length_cons] at h; omega)]
    show placeOpts rank _ rest (k + (c + 1) + 1 + 0) = placeOpts rank b (some p :: rest) (k + (c + 1))
    rw [Nat.add_zero]
    rfl

theorem gridShape8_placeOpts (rank : Nat) : ∀ (l : List (Option Piece)) (j : Nat) (b : Board),
    gridShape8 b → gridShape8 (placeOpts rank b l j)
  | [], _, _, h => h
  | none :: rest, j, b, h => gridShape8_placeOpts rank rest (j + 1) b h
  | some p :: rest, j, b, h =>
    gridShape8_placeOpts rank rest (j + 1) _ (gridShape8_setPiece h _ _)

theorem tileAt_placeOpts_other (rank : Nat) :
    ∀ (l : List (Option Piece)) (j : Nat) (b : Board) (f r' : Nat),
    (r' ≠ rank ∨ f < j) →
    tileAt (placeOpts rank b l j) (f, r') = tileAt b (f, r')
  | [], _, _, _, _, _ => rfl
  | none :: rest, j, b, f, r', h => by
    unfold placeOpts
    exact tileAt_placeOpts_other rank rest (j + 1) b f r'
      (h.imp id (fun hlt => Nat.lt_succ_of_lt hlt))
  | some p :: rest, j, b, f, r', h => by
    unfold placeOpts
    rw [tileAt_placeOpts_other rank rest (j + 1) _ f r'
      (h.imp id (fun hlt => Nat.lt_succ_of_lt hlt))]
    refine tileAt_setPiece_other ?_ _
    rcases h with h | h
    · exact fun he => h (congrArg Prod.snd he)
    · exact fun he => Nat.ne_of_lt h (congrArg Prod.fst he)

theorem tileAt_placeOpts_get (rank : Nat) :
    ∀ (l : List (Option Piece)) (j : Nat) (b : Board) (i : Nat),
    i < l.length → gridShape8 b → j + l.length ≤ 8 → rank < 8 →
    tileAt (placeOpts rank b l j) (j + i, rank) =
      (match l[i]? with
       | some (some p) => some (fenPiece p.color p.piece_type (j + i) rank)
       | _ => tileAt b (j + i, rank))
  | [], _, _, i, hi, _, _, _ => absurd hi (by simp)
  | none :: rest, j, b, 0, hi, hs, hj, hr => by
    unfold placeOpts
    rw [tileAt_placeOpts_other rank rest (j + 1) b _ rank (Or.inr (by omega))]
    simp only [List.getElem?_cons_zero]
  | none :: rest, j, b, i + 1, hi, hs, hj, hr => by
    unfold placeOpts
    have ih := tileAt_placeOpts_get rank rest (j + 1) b i
      (by simpa using Nat.lt_of_succ_lt_succ hi) hs (by simp at hj ⊢; omega) hr
    rw [show j + (i + 1) = (j + 1) + i by omega]
    rw [ih]
    simp only [List.getElem?_cons_succ]
  | some p :: rest, j, b, 0, hi, hs, hj, hr => by
    unfold placeOpts
    rw [tileAt_placeOpts_other rank rest (j + 1) _ _ rank (Or.inr (by omega))]
    show tileAt (setPiece b (j, rank) _) (j + 0, rank) = _
    rw [Nat.add_zero]
    rw [tileAt_setPiece_same
      (getTile_isSome_of_shape hs (show j < 8 by simp at hj; omega) hr)]
    simp only [List.getElem?_cons_zero]
  | some p :: rest, j, b, i + 1, hi, hs, hj, hr => by
    unfold placeOpts
    have ih := tileAt_placeOpts_get rank rest (j + 1)
      (setPiece b (j, rank) (some (fenPiece p.color p.piece_type j rank))) i
      (by simpa using Nat.lt_of_succ_lt_succ hi) (gridShape8_setPiece hs _ _)
      (by simp at hj ⊢; omega) hr
    rw [show j + (i + 1) = (j + 1) + i by omega]
    rw [ih]
    simp only [List.getElem?_cons_succ]
    rcases rest[i]? with _ | op
    · dsimp only
      refine tileAt_setPiece_other (fun he => ?_) _
      have h1 : j + 1 + i = j := by
        have := congrArg (fun (x : Pos) => x.1) he
        simpa using this
      omega
    · rcases op with _ | p'
      · dsimp only
        refine tileAt_setPiece_other (fun he => ?_) _
        have h1 : j + 1 + i = j := by
          have := congrArg (fun (x : Pos) => x.1) he
          simpa using this
        omega
      · rfl

theorem rowPieces_length (b : Board) (r : Nat) : (rowPieces b r).length = 8 := by
  simp [rowPieces]

theorem rowPieces_getElem (b : Board) (r f : Nat) (h : f < 8) :
    (rowPieces b r)[f]? = some (tileAt b (f, r)) := by
  simp [rowPieces, List.getElem?_map, List.getElem?_range, h]

theorem gridShape8_fresh (b : Board) : gridShape8 { b with grid := freshGrid } := by
  constructor
  · simp [freshGrid]
  · intro r hr
    simp [freshGrid, List.getElem?_map, List.getElem?_range, hr]

theorem tileAt_fresh (b : Board) (q : Pos) :
    tileAt { b with grid := freshGrid } q = none := by
  unfold tileAt getTile
  show (((freshGrid[q.2]?).bind (fun row => row[q.1]?)).map Tile.piece_here).join = none
  simp only [freshGrid, List.getElem?_map]
  rcases (List.range 8)[q.2]? with _ | r0
  · rfl
  · show ((((List.range 8).map (fun f => freshTile f r0))[q.1]?).map Tile.piece_here).join = none
    simp only [List.getElem?_map]
    rcases (List.range 8)[q.1]? with _ | f0 <;> rfl

/-- Parsing the rows for ranks `i, i+1, ...` reproduces those ranks of `P`
(kind, color and square; the recreated pieces come from `fenPiece`),
provided the parsed-into board is empty from rank `i` upward. -/
theorem tileAt_parseRows (P : Board) : ∀ (n i : Nat) (b : Board) (f r : Nat),
    gridShape8 b → f < 8 → r < 8 → i + n ≤ 8 →
    (∀ f' r' : Nat, r' < 8 → i ≤ r' → tileAt b (f', r') = none) →
    tileAt (parseRows b ((List.range' i n).map (fun s => fenRowAux (rowPieces P s) 0)) i) (f, r) =
      (if i ≤ r ∧ r < i + n then
        (tileAt P (f, r)).map (fun p => fenPiece p.color p.piece_type f r)
      else tileAt b (f, r))
  | 0, i, b, f, r, _, _, _, _, _ => by
    rw [if_neg (by omega)]
    rfl
  | n + 1, i, b, f, r, hs, hf, hr, hn, hempty => by
    rw [List.range'_succ, List.map_cons]
    show tileAt (parseRows (parseRowChars i b (fenRowAux (rowPieces P i) 0) 0) _ (i + 1)) (f, r) = _
    rw [parse_fenRowAux i (rowPieces P i) 0 0 b (by rw [rowPieces_length])]
    have hb' : gridShape8 (placeOpts i b (rowPieces P i) (0 + 0)) :=
      gridShape8_placeOpts i _ _ b hs
    have hempty' : ∀ f' r' : Nat, r' < 8 → i + 1 ≤ r' →
        tileAt (placeOpts i b (rowPieces P i) (0 + 0)) (f', r') = none := by
      intro f' r' h8 hge
      rw [tileAt_placeOpts_other i _ _ b f' r' (Or.inl (by omega))]
      exact hempty f' r' h8 (by omega)
    rw [tileAt_parseRows P n (i + 1) _ f r hb' hf hr (by omega) hempty']
    by_cases hwin : i + 1 ≤ r ∧ r < i + 1 + n
    · rw [if_pos hwin, if_pos (by omega)]
    · rw [if_neg hwin]
      by_cases hri : r = i
      · subst hri
        rw [if_pos (by omega)]
        rw [show (0 : Nat) + 0 = 0 by rfl]
        have hget := tileAt_placeOpts_get r (rowPieces P r) 0 b f
          (by rw [rowPieces_length]; exact hf) hs (by simp [rowPieces_length]) hr
        simp only [Nat.zero_add] at hget
        rw [hget]
        rw [rowPieces_getElem P r f hf]
        rcases tileAt P (f, r) with _ | p
        · dsimp only
          exact hempty f r hr (by omega)
        · rfl
      · rw [if_neg (by omega)]
        exact tileAt_placeOpts_other i _ _ b f r (Or.inl hri)

theorem tileAt_material (b : Board) (x : Int) (q : Pos) :
    tileAt { b with material_differential := x } q = tileAt b q := rfl

/-- The occupancy of `load_fen (board_state P)`: every square of the
reloaded board holds the `fenPiece` recreation of `P`'s occupant — same
square, same kind, same color. -/
theorem tileAt_load_fen_board_state (P : Board) (f r : Nat) (hf : f < 8) (hr : r < 8) :
    tileAt (load_fen P (board_state P none)) (f, r) =
      (tileAt P (f, r)).map (fun p => fenPiece p.color p.piece_type f r) := by
  unfold load_fen
  rw [tileAt_rci, tileAt_material]
  have hsplit : splitSlash (board_state P none).toList =
      ((List.range 8).reverse).map (fun s => fenRowAux (rowPieces P s) 0) := by
    show splitSlash (placementChars P) = _
    unfold placementChars
    apply splitSlash_joinSlash
    · rw [show (List.range 8).reverse = [7, 6, 5, 4, 3, 2, 1, 0] from rfl]
      simp
    · intro row hrow
      simp only [List.mem_map] at hrow
      obtain ⟨s, hs, rfl⟩ := hrow
      exact fenRowAux_no_slash _ 0 (by simp [rowPieces_length])
  rw [hsplit]
  have hrev : (((List.range 8).reverse).map (fun s => fenRowAux (rowPieces P s) 0)).reverse =
      (List.range' 0 8).map (fun s => fenRowAux (rowPieces P s) 0) := by
    rw [← List.range_eq_range', List.map_reverse, List.reverse_reverse]
  rw [hrev]
  rw [tileAt_parseRows P 8 0 { P with grid := freshGrid } f r (gridShape8_fresh P) hf hr
    (by omega) (fun f' r' _ _ => tileAt_fresh P (f', r'))]
  rw [if_pos ⟨Nat.zero_le r, by omega⟩]

theorem calcLoop_congr : ∀ (l : List Pos) (acc : Int) (b b' : Board),
    (∀ q ∈ l, kindAt b q = kindAt b' q) →
    l.foldl (fun a fr =>
      match tileAt b fr with
      | none => a
      | some p =>
        if p.color = Color.WHITE then a + pieceVal p.piece_type
        else a - pieceVal p.piece_type) acc =
    l.foldl (fun a fr =>
      match tileAt b' fr with
      | none => a
      | some p =>
        if p.color = Color.WHITE then a + pieceVal p.piece_type
        else a - pieceVal p.piece_type) acc
  | [], _, _, _, _ => rfl
  | q :: rest, acc, b, b', h => by
    simp only [List.foldl_cons]
    have hk := h q (List.mem_cons_self _ _)
    unfold kindAt at hk
    have hstep :
        (match tileAt b q with
         | none => acc
         | some p =>
           if p.color = Color.WHITE then acc + pieceVal p.piece_type
           else acc - pieceVal p.piece_type) =
        (match tileAt b' q with
         | none => acc
         | some p =>
           if p.color = Color.WHITE then acc + pieceVal p.piece_type
           else acc - pieceVal p.piece_type) := by
      rcases e : tileAt b q with _ | p <;> rcases e' : tileAt b' q with _ | p'
      · rfl
      · rw [e, e'] at hk; simp at hk
      · rw [e, e'] at hk; simp at hk
      · rw [e, e'] at hk
        simp at hk
        dsimp only
        rw [hk.1, hk.2]
    rw [hstep]
    exact calcLoop_congr rest _ b b' (fun x hx => h x (List.mem_cons_of_mem _ hx))

theorem calculate_material_congr (b b' : Board)
    (h : ∀ q ∈ allSquares, kindAt b q = kindAt b' q) :
    calculate_material b = calculate_material b' :=
  calcLoop_congr allSquares 0 b b' h

/-- load_fen always leaves `material_differential` equal to the signed
material sum of the grid it just built (lines 667-671). -/
theorem load_fen_material (b : Board) (fen : String) :
    (load_fen b fen).material_differential = calculate_material (load_fen b fen) := by
  unfold load_fen
  refine Eq.trans (b := calculate_material
    (parseRows { b with grid := freshGrid } (splitSlash fen.toList).reverse 0)) rfl ?_
  apply calculate_material_congr
  intro q hq
  unfold kindAt
  rw [show ∀ z : Board, tileAt (remove_check_indicators z) q = tileAt z q from
    fun z => tileAt_rci z q]
  rfl

theorem load_fen_roundtrip_material (P : Board) :
    (load_fen P (board_state P none)).material_differential = calculate_material P := by
  rw [load_fen_material P (board_state P none)]
  apply calculate_material_congr
  intro q hq
  obtain ⟨h1, h2⟩ := mem_allSquares hq
  rcases q with ⟨f, r⟩
  unfold kindAt
  rw [tileAt_load_fen_board_state P f r h1 h2]
  cases tileAt P (f, r) <;> rfl

/-! ## move_piece phase lemmas -/

theorem sameExceptGrid.mh {b b' : Board} (h : sameExceptGrid b b') :
    b'.move_history = b.move_history :=
  congrArg (fun t => t.2.2.2.1) h

theorem sameExceptGrid.mat {b b' : Board} (h : sameExceptGrid b b') :
    b'.material_differential = b.material_differential :=
  congrArg (fun t => t.2.2.2.2.2.1) h

theorem move_piece_eq {b : Board} (file rank : Nat) {sel : Piece}
    (hcur : is_curr_pos b = true) (hsel : b.selected_piece = some sel) :
    move_piece b file rank = mpCore b file rank sel := by
  unfold move_piece
  rw [if_neg (by simp [hcur]), hsel]

theorem seg_applyCastling (b : Board) (piece : Piece) (bf f r : Nat) :
    sameExceptGrid b (applyCastling b piece bf f r) := by
  unfold applyCastling
  repeat' split
  all_goals rfl

theorem gridShape8_applyCastling {b : Board} (hs : gridShape8 b)
    (piece : Piece) (bf f r : Nat) : gridShape8 (applyCastling b piece bf f r) := by
  unfold applyCastling
  repeat' split
  all_goals first
  | exact gridShape8_setPiece (gridShape8_setPiece hs _ _) _ _
  | exact hs

theorem gridConsistent_castleCase {b : Board} (hg : gridConsistent b)
    (src dst : Pos) :
    gridConsistent
      (match tileAt b src with
       | some rook => setPiece (setPiece b dst (some { rook with current_pos := dst })) src none
       | none => b) := by
  rcases tileAt b src with _ | rook
  · exact hg
  · refine gridConsistent_setPiece ?_ (occOK_none _)
    refine gridConsistent_setPiece hg ?_
    exact occOK_some rfl

theorem gridConsistent_applyCastling {b : Board} (hg : gridConsistent b)
    (piece : Piece) (bf f r : Nat) : gridConsistent (applyCastling b piece bf f r) := by
  unfold applyCastling
  split
  · split
    · exact gridConsistent_castleCase hg (7, 0) (5, 0)
    · split
      · exact gridConsistent_castleCase hg (0, 0) (3, 0)
      · split
        · exact gridConsistent_castleCase hg (7, 7) (5, 7)
        · split
          · exact gridConsistent_castleCase hg (0, 7) (3, 7)
          · exact hg
  · exact hg

theorem tileAt_highlight {b : Board} (hg : gridConsistent b) (c : Color) (q : Pos) :
    tileAt (highlight_king_in_check b c) q = tileAt b q := by
  simp only [highlight_king_in_check]
  by_cases hc : (check_for_checks b c).2
  · rw [if_pos hc]
    rcases e : find_king (check_for_checks b c).1 c with _ | kp
    · dsimp only
      rw [check_for_checks_preserve b c hg]
    · dsimp only
      rw [tileAt_set_check_at, check_for_checks_preserve b c hg]
  · rw [if_neg hc, check_for_checks_preserve b c hg]

theorem gridConsistent_highlight {b : Board} (hg : gridConsistent b) (c : Color) :
    gridConsistent (highlight_king_in_check b c) := by
  intro f hf r hr
  rw [tileAt_highlight hg]
  exact hg f hf r hr

theorem gridShape8_highlight {b : Board} (hg : gridConsistent b) (hs : gridShape8 b)
    (c : Color) : gridShape8 (highlight_king_in_check b c) := by
  simp only [highlight_king_in_check]
  by_cases hc : (check_for_checks b c).2
  · rw [if_pos hc]
    rcases e : find_king (check_for_checks b c).1 c with _ | kp
    · dsimp only
      rw [check_for_checks_preserve b c hg]
      exact hs
    · dsimp only
      rw [check_for_checks_preserve b c hg]
      exact gridShape8_set_check_at hs kp
  · rw [if_neg hc, check_for_checks_preserve b c hg]
    exact hs

theorem tileAt_checkStep {x : Board} (hg : gridConsistent x) (d : Color) (q : Pos) :
    tileAt
      (if (check_for_checks x d).2 then
        highlight_king_in_check (check_for_checks x d).1 d
      else (check_for_checks x d).1) q = tileAt x q := by
  by_cases h : (check_for_checks x d).2
  · rw [if_pos h, check_for_checks_preserve x d hg]
    exact tileAt_highlight hg d q
  · rw [if_neg h, check_for_checks_preserve x d hg]

theorem gridConsistent_checkStep {x : Board} (hg : gridConsistent x) (d : Color) :
    gridConsistent
      (if (check_for_checks x d).2 then
        highlight_king_in_check (check_for_checks x d).1 d
      else (check_for_checks x d).1) := by
  by_cases h : (check_for_checks x d).2
  · rw [if_pos h, check_for_checks_preserve x d hg]
    exact gridConsistent_highlight hg d
  · rw [if_neg h, check_for_checks_preserve x d hg]
    exact hg

theorem gridShape8_checkStep {x : Board} (hg : gridConsistent x) (hs : gridShape8 x)
    (d : Color) :
    gridShape8
      (if (check_for_checks x d).2 then
        highlight_king_in_check (check_for_checks x d).1 d
      else (check_for_checks x d).1) := by
  by_cases h : (check_for_checks x d).2
  · rw [if_pos h, check_for_checks_preserve x d hg]
    exact gridShape8_highlight hg hs d
  · rw [if_neg h, check_for_checks_preserve x d hg]
    exact hs

theorem tileAt_checksPhase {b : Board} (hg : gridConsistent b) (c : Color) (q : Pos) :
    tileAt (checksPhase b c) q = tileAt b q := by
  simp only [checksPhase]
  rw [tileAt_checkStep (gridConsistent_checkStep (gridConsistent_rci hg) _)]
  rw [tileAt_checkStep (gridConsistent_rci hg)]
  exact tileAt_rci b q

theorem gridConsistent_checksPhase {b : Board} (hg : gridConsistent b) (c : Color) :
    gridConsistent (checksPhase b c) := by
  intro f hf r hr
  rw [tileAt_checksPhase hg]
  exact hg f hf r hr

theorem gridShape8_checksPhase {b : Board} (hg : gridConsistent b) (hs : gridShape8 b)
    (c : Color) : gridShape8 (checksPhase b c) := by
  simp only [checksPhase]
  exact gridShape8_checkStep (gridConsistent_checkStep (gridConsistent_rci hg) _)
    (gridShape8_checkStep (gridConsistent_rci hg) (gridShape8_rci hs) _) _

theorem capturedUpdate_grid (b : Board) (cp : Option Piece) :
    (capturedUpdate b cp).grid = b.grid := by
  unfold capturedUpdate
  rcases cp with _ | c
  · rfl
  · dsimp only
    split <;> rfl

theorem capturedUpdate_mh (b : Board) (cp : Option Piece) :
    (capturedUpdate b cp).move_history = b.move_history := by
  unfold capturedUpdate
  rcases cp with _ | c
  · rfl
  · dsimp only
    split <;> rfl

theorem setPiece_grid_congr {X Y : Board} (h : X.grid = Y.grid) (p : Pos) (v : Option Piece) :
    (setPiece X p v).grid = (setPiece Y p v).grid := by
  unfold setPiece updTile
  rw [h]

theorem tileAt_of_grid_eq {X Y : Board} (h : X.grid = Y.grid) (q : Pos) :
    tileAt X q = tileAt Y q := by
  unfold tileAt getTile
  rw [h]

theorem gridConsistent_of_grid_eq {X Y : Board} (h : X.grid = Y.grid)
    (hg : gridConsistent Y) : gridConsistent X := by
  intro f hf r hr
  rw [tileAt_of_grid_eq h]
  exact hg f hf r hr

theorem gridShape8_of_grid_eq {X Y : Board} (h : X.grid = Y.grid)
    (hs : gridShape8 Y) : gridShape8 X := by
  constructor
  · rw [h]; exact hs.1
  · intro r hr; rw [h]; exact hs.2 r hr

theorem grid_mpStage1 (b : Board) (file rank : Nat) (sel : Piece) :
    (mpStage1 b file rank sel).grid =
      (setPiece (setPiece b (file, rank) (some (movedSel sel file rank)))
        sel.get_position none).grid := by
  exact setPiece_grid_congr (setPiece_grid_congr (capturedUpdate_grid b _) _ _) _ _

theorem tileAt_mpStage1 (b : Board) (file rank : Nat) (sel : Piece) (q : Pos) :
    tileAt (mpStage1 b file rank sel) q =
      tileAt (setPiece (setPiece b (file, rank) (some (movedSel sel file rank)))
        sel.get_position none) q :=
  tileAt_of_grid_eq (grid_mpStage1 b file rank sel) q

theorem gridConsistent_mpStage1 {b : Board} (hg : gridConsistent b)
    (file rank : Nat) (sel : Piece) : gridConsistent (mpStage1 b file rank sel) := by
  refine gridConsistent_of_grid_eq (grid_mpStage1 b file rank sel) ?_
  refine gridConsistent_setPiece ?_ (occOK_none _)
  refine gridConsistent_setPiece hg ?_
  exact occOK_some rfl

theorem gridShape8_mpStage1 {b : Board} (hs : gridShape8 b)
    (file rank : Nat) (sel : Piece) : gridShape8 (mpStage1 b file rank sel) :=
  gridShape8_of_grid_eq (grid_mpStage1 b file rank sel)
    (gridShape8_setPiece (gridShape8_setPiece hs _ _) _ _)

theorem mpStage1_mh (b : Board) (file rank : Nat) (sel : Piece) :
    (mpStage1 b file rank sel).move_history = b.move_history := by
  show (capturedUpdate b (tileAt b (file, rank))).move_history = b.move_history
  exact capturedUpdate_mh b _

/-- The recomputation at line 131 makes `mpStage1`'s differential the
exact signed sum of its own grid. -/
theorem material_recompute_wrap (X : Board) :
    ({ X with material_differential := calculate_material X } : Board).material_differential =
      calculate_material ({ X with material_differential := calculate_material X } : Board) := by
  show calculate_material X = _
  exact calculate_material_congr X _ (fun q _ => rfl)

theorem mpStage1_material_inv (b : Board) (file rank : Nat) (sel : Piece) :
    (mpStage1 b file rank sel).material_differential =
      calculate_material (mpStage1 b file rank sel) :=
  material_recompute_wrap _

/-- The final index/selection/history wrappers of `mpCore` do not touch
the grid: its occupancy is the occupancy after the check phase. -/
theorem mpCore_tileAt (b : Board) (file rank : Nat) (sel : Piece) (q : Pos) :
    tileAt (mpCore b file rank sel) q =
      tileAt (checksPhase (applyCastling (mpStage1 b file rank sel)
        (movedSel sel file rank) sel.get_position.1 file rank)
        (movedSel sel file rank).color) q := rfl

theorem mpCore_material (b : Board) (file rank : Nat) (sel : Piece) :
    (mpCore b file rank sel).material_differential =
      (checksPhase (applyCastling (mpStage1 b file rank sel)
        (movedSel sel file rank) sel.get_position.1 file rank)
        (movedSel sel file rank).color).material_differential := rfl

theorem mpCore_history (b : Board) (file rank : Nat) (sel : Piece) :
    ∃ e : MoveRecord, (mpCore b file rank sel).move_history = b.move_history ++ [e] := by
  obtain ⟨e, he⟩ : ∃ e : MoveRecord, (mpCore b file rank sel).move_history =
      (checksPhase (applyCastling (mpStage1 b file rank sel) (movedSel sel file rank)
        sel.get_position.1 file rank) (movedSel sel file rank).color).move_history ++ [e] :=
    ⟨_, rfl⟩
  refine ⟨e, ?_⟩
  rw [he, (seg_checksPhase _ _).mh, (seg_applyCastling _ _ _ _ _).mh, mpStage1_mh]

theorem mpCore_selected (b : Board) (file rank : Nat) (sel : Piece) :
    (mpCore b file rank sel).selected_piece = none := rfl

theorem mpCore_curr (b : Board) (file rank : Nat) (sel : Piece) :
    is_curr_pos (mpCore b file rank sel) = true := by
  unfold is_curr_pos
  have h1 : (mpCore b file rank sel).current_index =
      ((mpCore b file rank sel).move_history.length : Int) - 1 := rfl
  rw [h1]
  simp

/-! ## Material sums under single-tile writes -/

theorem calcLoop_eq_sum : ∀ (l : List Pos) (acc : Int) (b : Board),
    l.foldl (fun a fr =>
      match tileAt b fr with
      | none => a
      | some p =>
        if p.color = Color.WHITE then a + pieceVal p.piece_type
        else a - pieceVal p.piece_type) acc =
    acc + (l.map (fun q => sval (tileAt b q))).sum
  | [], acc, b => by simp
  | q :: rest, acc, b => by
    simp only [List.foldl_cons, List.map_cons, List.sum_cons]
    rw [calcLoop_eq_sum rest _ b]
    rcases e : tileAt b q with _ | p
    · simp [sval]
    · by_cases hc : p.color = Color.WHITE <;> simp [sval, hc] <;> ring

theorem calculate_material_eq_sum (b : Board) :
    calculate_material b = (allSquares.map (fun q => sval (tileAt b q))).sum := by
  unfold calculate_material
  rw [calcLoop_eq_sum]
  simp

theorem allSquares_nodup : allSquares.Nodup := by decide

theorem allSquares_mem {q : Pos} (h1 : q.1 < 8) (h2 : q.2 < 8) : q ∈ allSquares := by
  unfold allSquares
  simp only [List.mem_flatten, List.mem_map]
  exact ⟨(List.range 8).map (fun f => (f, q.2)),
    ⟨q.2, by simp [List.mem_range, h2], rfl⟩,
    by simp only [List.mem_map, List.mem_range]; exact ⟨q.1, h1, rfl⟩⟩

theorem map_sum_update : ∀ (l : List Pos) (g g' : Pos → Int) (q : Pos),
    l.Nodup → q ∈ l → (∀ x ∈ l, x ≠ q → g' x = g x) →
    (l.map g').sum = (l.map g).sum - g q + g' q
  | [], _, _, _, _, hq, _ => absurd hq (by simp)
  | x :: rest, g, g', q, hnd, hq, hagree => by
    simp only [List.map_cons, List.sum_cons]
    rcases List.mem_cons.mp hq with hx | hx
    · subst hx
      have hrest : (rest.map g').sum = (rest.map g).sum := by
        have : ∀ y ∈ rest, g' y = g y := by
          intro y hy
          refine hagree y (List.mem_cons_of_mem _ hy) (fun hyx => ?_)
          subst hyx
          exact (List.nodup_cons.mp hnd).1 hy
        clear hagree hq hnd
        induction rest with
        | nil => rfl
        | cons z zs ih =>
          simp only [List.map_cons, List.sum_cons]
          rw [this z (List.mem_cons_self _ _), ih (fun y hy => this y (List.mem_cons_of_mem _ hy))]
      rw [hrest]
      ring
    · have hxq : x ≠ q := fun he => (List.nodup_cons.mp hnd).1 (he ▸ hx)
      rw [hagree x (List.mem_cons_self _ _) hxq]
      rw [map_sum_update rest g g' q (List.nodup_cons.mp hnd).2 hx
        (fun y hy hyq => hagree y (List.mem_cons_of_mem _ hy) hyq)]
      ring

/-- Writing one in-bounds tile shifts the material sum by the signed value
delta of that square. -/
theorem calc_setPiece {b : Board} (hs : gridShape8 b) {q : Pos}
    (h1 : q.1 < 8) (h2 : q.2 < 8) (v : Option Piece) :
    calculate_material (setPiece b q v) =
      calculate_material b - sval (tileAt b q) + sval v := by
  rw [calculate_material_eq_sum, calculate_material_eq_sum]
  rw [map_sum_update allSquares (fun x => sval (tileAt b x)) (fun x => sval (tileAt (setPiece b q v) x)) q
    allSquares_nodup (allSquares_mem h1 h2)
    (fun x _ hxq => by
      show sval (tileAt (setPiece b q v) x) = sval (tileAt b x)
      rw [tileAt_setPiece_other hxq])]
  rw [tileAt_setPiece_same (getTile_isSome_of_shape hs h1 h2)]

theorem sval_repos (ro : Piece) (m : Pos) : sval (some { ro with current_pos := m }) = sval (some ro) := rfl

/-- The castling side effect does not change the material sum, provided
the rook's destination tile is empty in the relevant case. -/
theorem calc_applyCastling {b4 : Board} (hs : gridShape8 b4)
    (piece : Piece) (bf file rank : Nat)
    (h : piece.piece_type = PieceType.KING ∧ bf = 4 →
      ((piece.color = Color.WHITE ∧ rank = 0 ∧ file = 6) → tileAt b4 (5, 0) = none) ∧
      ((piece.color = Color.WHITE ∧ rank = 0 ∧ file = 2) → tileAt b4 (3, 0) = none) ∧
      ((piece.color = Color.BLACK ∧ rank = 7 ∧ file = 6) → tileAt b4 (5, 7) = none) ∧
      ((piece.color = Color.BLACK ∧ rank = 7 ∧ file = 2) → tileAt b4 (3, 7) = none)) :
    calculate_material (applyCastling b4 piece bf file rank) = calculate_material b4 := by
  unfold applyCastling
  by_cases hc1 : piece.piece_type = PieceType.KING ∧ bf = 4
  · rw [if_pos hc1]
    obtain ⟨e1, e2, e3, e4⟩ := h hc1
    by_cases hw6 : piece.color = Color.WHITE ∧ rank = 0 ∧ file = 6
    · rw [if_pos hw6]
      rcases hro : tileAt b4 (7, 0) with _ | ro
      · rfl
      · rw [calc_setPiece (gridShape8_setPiece hs _ _) (by omega) (by omega),
          calc_setPiece hs (by omega) (by omega),
          tileAt_setPiece_other (by decide), hro, e1 hw6, sval_repos]
        simp [sval]
    · rw [if_neg hw6]
      by_cases hw2 : piece.color = Color.WHITE ∧ rank = 0 ∧ file = 2
      · rw [if_pos hw2]
        rcases hro : tileAt b4 (0, 0) with _ | ro
        · rfl
        · rw [calc_setPiece (gridShape8_setPiece hs _ _) (by omega) (by omega),
            calc_setPiece hs (by omega) (by omega),
            tileAt_setPiece_other (by decide), hro, e2 hw2, sval_repos]
          simp [sval]
      · rw [if_neg hw2]
        by_cases hb6 : piece.color = Color.BLACK ∧ rank = 7 ∧ file = 6
        · rw [if_pos hb6]
          rcases hro : tileAt b4 (7, 7) with _ | ro
          · rfl
          · rw [calc_setPiece (gridShape8_setPiece hs _ _) (by omega) (by omega),
              calc_setPiece hs (by omega) (by omega),
              tileAt_setPiece_other (by decide), hro, e3 hb6, sval_repos]
            simp [sval]
        · rw [if_neg hb6]
          by_cases hb2 : piece.color = Color.BLACK ∧ rank = 7 ∧ file = 2
          · rw [if_pos hb2]
            rcases hro : tileAt b4 (0, 7) with _ | ro
            · rfl
            · rw [calc_setPiece (gridShape8_setPiece hs _ _) (by omega) (by omega),
                calc_setPiece hs (by omega) (by omega),
                tileAt_setPiece_other (by decide), hro, e4 hb2, sval_repos]
              simp [sval]
          · rw [if_neg hb2]
  · rw [if_neg hc1]

/-! ## The claims -/

/-- C1. Legality closure: `get_all_legal` hands the board back unchanged
and returns exactly the piece's capability moves filtered by
`check_if_move_into_check`; in particular every returned destination is a
capability move for which `check_if_move_into_check` reports false (the
mover's own king is not left in check). -/
theorem C1_legality_closure (b : Board) (p : Piece)
    (hg : gridConsistent b) (hocc : tileAt b p.current_pos = some p) :
    get_all_legal b p =
      (b, (get_moves b p).filter (fun m => !(check_if_move_into_check b p m).2)) ∧
    ∀ m ∈ (get_all_legal b p).2,
      m ∈ get_moves b p ∧ (check_if_move_into_check b p m).2 = false := by
  have h : get_all_legal b p =
      (b, (get_moves b p).filter (fun m => !(check_if_move_into_check b p m).2)) :=
    get_all_legalA_spec (check_for_checksF 2)
      (fun x c hgc => checkF_preserve 2 x c hgc) b p hg hocc
  refine ⟨h, fun m hm => ?_⟩
  rw [h] at hm
  have h2 := List.mem_filter.mp hm
  exact ⟨h2.1, by simpa using h2.2⟩

theorem C1_legality_closure_witness :
    gridConsistent Board.start ∧
    (get_all_legal Board.start wKnightB1 =
      (Board.start, (get_moves Board.start wKnightB1).filter
        (fun m => !(check_if_move_into_check Board.start wKnightB1 m).2)) ∧
    ∀ m ∈ (get_all_legal Board.start wKnightB1).2,
      m ∈ get_moves Board.start wKnightB1 ∧
        (check_if_move_into_check Board.start wKnightB1 m).2 = false) :=
  ⟨by decide, C1_legality_closure Board.start wKnightB1 (by decide) (by decide)⟩

/-- C2, counterexample to the original claim: with the rook on a1 selected
in the start position, the target (0,3) is not in `get_all_legal`, yet
`move_piece` is not "silently rejected with no state change" — it applies
the move and the target tile changes. -/
theorem C2_counterexample :
    (0, 3) ∉ (get_all_legal bRookSel wRookA1).2 ∧
    is_curr_pos bRookSel = true ∧
    bRookSel.selected_piece = some wRookA1 ∧
    tileAt (move_piece bRookSel 0 3) (0, 3) ≠ tileAt bRookSel (0, 3) := by
  decide

/-- Inside the castling step, the tile of the move's own target square is
never written (the four rook relocations touch other files). -/
theorem tileAt_applyCastling_target (b4 : Board) (piece : Piece) (bf file rank : Nat) :
    tileAt (applyCastling b4 piece bf file rank) (file, rank) = tileAt b4 (file, rank) := by
  unfold applyCastling
  by_cases h1 : piece.piece_type = PieceType.KING ∧ bf = 4
  · rw [if_pos h1]
    by_cases hw6 : piece.color = Color.WHITE ∧ rank = 0 ∧ file = 6
    · rw [if_pos hw6]
      obtain ⟨-, hr0, hf6⟩ := hw6
      subst hr0; subst hf6
      rcases tileAt b4 (7, 0) with _ | ro
      · rfl
      · rw [tileAt_setPiece_other (by decide), tileAt_setPiece_other (by decide)]
    · rw [if_neg hw6]
      by_cases hw2 : piece.color = Color.WHITE ∧ rank = 0 ∧ file = 2
      · rw [if_pos hw2]
        obtain ⟨-, hr0, hf2⟩ := hw2
        subst hr0; subst hf2
        rcases tileAt b4 (0, 0) with _ | ro
        · rfl
        · rw [tileAt_setPiece_other (by decide), tileAt_setPiece_other (by decide)]
      · rw [if_neg hw2]
        by_cases hb6 : piece.color = Color.BLACK ∧ rank = 7 ∧ file = 6
        · rw [if_pos hb6]
          obtain ⟨-, hr7, hf6⟩ := hb6
          subst hr7; subst hf6
          rcases tileAt b4 (7, 7) with _ | ro
          · rfl
          · rw [tileAt_setPiece_other (by decide), tileAt_setPiece_other (by decide)]
        · rw [if_neg hb6]
          by_cases hb2 : piece.color = Color.BLACK ∧ rank = 7 ∧ file = 2
          · rw [if_pos hb2]
            obtain ⟨-, hr7, hf2⟩ := hb2
            subst hr7; subst hf2
            rcases tileAt b4 (0, 7) with _ | ro
            · rfl
            · rw [tileAt_setPiece_other (by decide), tileAt_setPiece_other (by decide)]
          · rw [if_neg hb2]
  · rw [if_neg h1]

/-- C2 amended: `move_piece` performs no legality check at all.  Whenever
its `is_curr_pos` guard passes and a piece is selected, the move is
applied unconditionally — the target tile receives the relocated piece
and a history record is appended — whether or not the target belongs to
`get_all_legal` (legality is enforced only by the GUI offering
highlighted targets). -/
theorem C2_no_legality_gate (b : Board) (file rank : Nat) (sel : Piece)
    (hs8 : gridShape8 b) (hg : gridConsistent b)
    (hcur : is_curr_pos b = true) (hsel : b.selected_piece = some sel)
    (hne : sel.get_position ≠ (file, rank)) (hf : file < 8) (hr : rank < 8) :
    tileAt (move_piece b file rank) (file, rank) = some (movedSel sel file rank) ∧
    ∃ e, (move_piece b file rank).move_history = b.move_history ++ [e] := by
  rw [move_piece_eq file rank hcur hsel]
  refine ⟨?_, mpCore_history b file rank sel⟩
  have hcons4 := gridConsistent_mpStage1 hg file rank sel
  have hcons5 := gridConsistent_applyCastling hcons4 (movedSel sel file rank)
    sel.get_position.1 file rank
  rw [mpCore_tileAt, tileAt_checksPhase hcons5, tileAt_applyCastling_target,
    tileAt_mpStage1, tileAt_setPiece_other (Ne.symm hne)]
  exact tileAt_setPiece_same (getTile_isSome_of_shape hs8 hf hr) _

theorem C2_no_legality_gate_witness :
    tileAt (move_piece bRookSel 0 3) (0, 3) = some (movedSel wRookA1 0 3) ∧
    ∃ e, (move_piece bRookSel 0 3).move_history = bRookSel.move_history ++ [e] :=
  C2_no_legality_gate bRookSel 0 3 wRookA1 (by decide) (by decide) (by decide) rfl
    (by decide) (by decide) (by decide)

/-- C3, counterexample to the original claim: with the board browsing the
past (`is_curr_pos` false), `resign`, `promote` and `en_passant` still
mutate the state. -/
theorem C3_counterexample :
    is_curr_pos bHist = false ∧
    (resign bHist Color.WHITE).resigned ≠ bHist.resigned ∧
    tileAt (promote bHist Color.WHITE 0 6) (0, 6) ≠ tileAt bHist (0, 6) ∧
    tileAt (en_passant bHist wPawnA2 (0, 3)) (0, 1) ≠ tileAt bHist (0, 1) := by
  decide

/-- C3 amended: the `is_curr_pos` guard exists only in `move_piece`: while
the user is browsing the past, `move_piece` is a strict no-op.  (`resign`,
`promote` and `en_passant` carry no such guard — see the
counterexample.) -/
theorem C3_guard_only_move_piece (b : Board) (file rank : Nat)
    (h : is_curr_pos b = false) : move_piece b file rank = b := by
  unfold move_piece
  rw [if_pos (by simp [h])]

theorem C3_guard_only_move_piece_witness :
    is_curr_pos bHist = false ∧ move_piece bHist 0 3 = bHist :=
  ⟨by decide, C3_guard_only_move_piece bHist 0 3 (by decide)⟩

/-- C4. Speculation rollback: on every return path
`check_if_move_into_check` hands back exactly the board it was given —
same tile occupancy (hence the moved piece's stored position is
restored), and every non-grid field (`en_passant_target`, `move_history`,
`current_index`, `material_differential`) is the original. -/
theorem C4_speculation_rollback (b : Board) (p : Piece) (m : Pos)
    (hg : gridConsistent b) (hocc : tileAt b p.current_pos = some p) :
    (check_if_move_into_check b p m).1 = b :=
  cimicA_restore (check_for_checksF 2)
    (fun x c hgc => checkF_preserve 2 x c hgc) b p m hg hocc

theorem C4_speculation_rollback_witness :
    (check_if_move_into_check Board.start wKnightB1 (2, 2)).1 = Board.start :=
  C4_speculation_rollback Board.start wKnightB1 (2, 2) (by decide) (by decide)

/-- C5, counterexample to the "material_differential equals that of P"
clause: on a position reached by a promotion (which leaves the
differential stale, see C6), the reloaded board's recomputed differential
differs from P's stored one. -/
theorem C5_counterexample :
    (load_fen bStale (board_state bStale none)).material_differential ≠
      bStale.material_differential := by
  decide

/-- C5 amended: `load_fen (board_state P)` reproduces a piece of the same
color and kind on exactly the squares of P, and its differential is the
recomputed signed material sum of P's grid — which coincides with P's
stored `material_differential` only when that field is in sync with the
grid (it is not immediately after `promote`). -/
theorem C5_roundtrip_amended (P : Board) (f r : Nat) (hf : f < 8) (hr : r < 8) :
    kindAt (load_fen P (board_state P none)) (f, r) = kindAt P (f, r) ∧
    (load_fen P (board_state P none)).material_differential = calculate_material P := by
  constructor
  · unfold kindAt
    rw [tileAt_load_fen_board_state P f r hf hr]
    rcases tileAt P (f, r) with _ | p <;> rfl
  · exact load_fen_roundtrip_material P

theorem C5_roundtrip_amended_witness :
    kindAt (load_fen Board.start (board_state Board.start none)) (0, 0) =
      kindAt Board.start (0, 0) ∧
    (load_fen Board.start (board_state Board.start none)).material_differential =
      calculate_material Board.start :=
  C5_roundtrip_amended Board.start 0 0 (by decide) (by decide)

/-- C6, counterexample to the original claim: `promote` replaces the pawn
on a8 by a Queen but leaves `material_differential` untouched, so the
invariant "differential = signed sum over the grid" — holding before the
mutation — is broken right after it. -/
theorem C6_counterexample :
    bProm.material_differential = calculate_material bProm ∧
    (promote bProm Color.WHITE 0 7).material_differential ≠
      calculate_material (promote bProm Color.WHITE 0 7) := by
  decide

/-- C6 amended: the invariant holds after `move_piece` (the full
recomputation at line 131; the subsequent castling relocation preserves
the sum whenever the rook's destination tile is empty, which any actual
castle satisfies) and after `load_fen` (lines 667-671); but `promote`
(lines 686-695) updates the grid only and leaves the differential exactly
as it was. -/
theorem C6_material_amended :
    (∀ b fen, (load_fen b fen).material_differential =
      calculate_material (load_fen b fen)) ∧
    (∀ b c file rank, (promote b c file rank).material_differential =
      b.material_differential) ∧
    (∀ b file rank sel, gridShape8 b → gridConsistent b →
      is_curr_pos b = true → b.selected_piece = some sel →
      (sel.piece_type = PieceType.KING → sel.get_position.1 = 4 →
        ((sel.color = Color.WHITE ∧ rank = 0 ∧ file = 6) → tileAt b (5, 0) = none) ∧
        ((sel.color = Color.WHITE ∧ rank = 0 ∧ file = 2) → tileAt b (3, 0) = none) ∧
        ((sel.color = Color.BLACK ∧ rank = 7 ∧ file = 6) → tileAt b (5, 7) = none) ∧
        ((sel.color = Color.BLACK ∧ rank = 7 ∧ file = 2) → tileAt b (3, 7) = none)) →
      (move_piece b file rank).material_differential =
        calculate_material (move_piece b file rank)) := by
  refine ⟨load_fen_material, fun b c file rank => (seg_setPiece b _ _).mat, ?_⟩
  intro b file rank sel hs8 hg hcur hsel hcastle
  rw [move_piece_eq file rank hcur hsel]
  have hcons4 := gridConsistent_mpStage1 hg file rank sel
  have hshape4 := gridShape8_mpStage1 hs8 file rank sel
  have h2 : calculate_material (mpCore b file rank sel) =
      calculate_material (applyCastling (mpStage1 b file rank sel)
        (movedSel sel file rank) sel.get_position.1 file rank) := by
    refine calculate_material_congr _ _ (fun q _ => ?_)
    unfold kindAt
    rw [mpCore_tileAt, tileAt_checksPhase (gridConsistent_applyCastling hcons4
      (movedSel sel file rank) sel.get_position.1 file rank)]
  have h3 : calculate_material (applyCastling (mpStage1 b file rank sel)
      (movedSel sel file rank) sel.get_position.1 file rank) =
      calculate_material (mpStage1 b file rank sel) := by
    refine calc_applyCastling hshape4 (movedSel sel file rank)
      sel.get_position.1 file rank (fun hc => ?_)
    obtain ⟨e1, e2, e3, e4⟩ := hcastle hc.1 hc.2
    have hbfne : ∀ x y : Nat, x ≠ 4 → ((x, y) : Pos) ≠ sel.get_position :=
      fun x y hx he => hx ((congrArg Prod.fst he).trans hc.2)
    refine ⟨fun hx => ?_, fun hx => ?_, fun hx => ?_, fun hx => ?_⟩
    · have hne2 : ((5, 0) : Pos) ≠ (file, rank) := by
        intro he
        rw [hx.2.2, hx.2.1] at he
        exact absurd he (by decide)
      rw [tileAt_mpStage1, tileAt_setPiece_other (hbfne 5 0 (by decide)),
        tileAt_setPiece_other hne2]
      exact e1 hx
    · have hne2 : ((3, 0) : Pos) ≠ (file, rank) := by
        intro he
        rw [hx.2.2, hx.2.1] at he
        exact absurd he (by decide)
      rw [tileAt_mpStage1, tileAt_setPiece_other (hbfne 3 0 (by decide)),
        tileAt_setPiece_other hne2]
      exact e2 hx
    · have hne2 : ((5, 7) : Pos) ≠ (file, rank) := by
        intro he
        rw [hx.2.2, hx.2.1] at he
        exact absurd he (by decide)
      rw [tileAt_mpStage1, tileAt_setPiece_other (hbfne 5 7 (by decide)),
        tileAt_setPiece_other hne2]
      exact e3 hx
    · have hne2 : ((3, 7) : Pos) ≠ (file, rank) := by
        intro he
        rw [hx.2.2, hx.2.1] at he
        exact absurd he (by decide)
      rw [tileAt_mpStage1, tileAt_setPiece_other (hbfne 3 7 (by decide)),
        tileAt_setPiece_other hne2]
      exact e4 hx
  rw [mpCore_material, (seg_checksPhase _ _).mat, (seg_applyCastling _ _ _ _ _).mat,
    mpStage1_material_inv, ← h3, ← h2]

theorem C6_material_amended_witness :
    (promote bProm Color.WHITE 0 7).material_differential =
      bProm.material_differential ∧
    (move_piece bKnightSel 2 2).material_differential =
      calculate_material (move_piece bKnightSel 2 2) :=
  ⟨C6_material_amended.2.1 bProm Color.WHITE 0 7,
   C6_material_amended.2.2 bKnightSel 2 2 wKnightB1 (by decide) (by decide) (by decide)
     rfl (by decide)⟩

/-- C7. Re-entrancy short-circuit: with the guard flag set,
`check_for_checks` returns `(b, false)` immediately, computing no enemy
moves; consequently the nesting depth of the mutually recursive chain is
irrelevant — every positive fuel computes the entry-point value, i.e. the
recursion terminates after one nested level. -/
theorem C7_reentrancy_short_circuit :
    (∀ b c, b.checking_for_checks = true → check_for_checks b c = (b, false)) ∧
    (∀ n b c, check_for_checksF (n + 1) b c = check_for_checks b c) :=
  ⟨fun b c h => checkF_flag_true 2 b c h, fun n b c => check_for_checksF_stable n b c⟩

theorem C7_reentrancy_short_circuit_witness :
    bFlag.checking_for_checks = true ∧
    check_for_checks bFlag Color.WHITE = (bFlag, false) :=
  ⟨rfl, C7_reentrancy_short_circuit.1 bFlag Color.WHITE rfl⟩

/-- C8. Castling side effect: a `move_piece` call that moves a king from
file 4 of its back rank to the castle destination file also relocates, in
the same mutation, the occupant of the rook's corner square to the square
the rook crosses to, and empties the corner.  Instantiating `c` and
`short` gives the four cases: White (4,0)→(6,0) moves (7,0)→(5,0), White
long (0,0)→(3,0), Black short (7,7)→(5,7), Black long (0,7)→(3,7). -/
theorem C8_castling (b : Board) (c : Color) (short : Bool) (k ro : Piece)
    (hs8 : gridShape8 b) (hg : gridConsistent b)
    (hcur : is_curr_pos b = true) (hsel : b.selected_piece = some k)
    (hk : k.piece_type = PieceType.KING) (hkc : k.color = c)
    (hkpos : k.current_pos = (4, homeRank c))
    (hro : tileAt b (castleRookFrom short, homeRank c) = some ro) :
    tileAt (move_piece b (castleKingFile short) (homeRank c))
        (castleRookTo short, homeRank c) =
      some { ro with current_pos := (castleRookTo short, homeRank c) } ∧
    tileAt (move_piece b (castleKingFile short) (homeRank c))
        (castleRookFrom short, homeRank c) = none := by
  rw [move_piece_eq _ _ hcur hsel]
  cases c <;> cases short <;>
    dsimp only [homeRank, castleKingFile, castleRookFrom, castleRookTo] at hkpos hro ⊢
  · -- White, long: king to (2,0), rook (0,0) → (3,0)
    have hne_k : ((0 : Nat), (0 : Nat)) ≠ k.get_position := by
      show _ ≠ k.current_pos
      rw [hkpos]; decide
    have hb4 : tileAt (mpStage1 b 2 0 k) (0, 0) = some ro := by
      rw [tileAt_mpStage1, tileAt_setPiece_other hne_k, tileAt_setPiece_other (by decide)]
      exact hro
    have hcons4 : gridConsistent (mpStage1 b 2 0 k) := gridConsistent_mpStage1 hg 2 0 k
    have hshape4 : gridShape8 (mpStage1 b 2 0 k) := gridShape8_mpStage1 hs8 2 0 k
    have hcons5 := gridConsistent_applyCastling hcons4 (movedSel k 2 0) k.get_position.1 2 0
    have hb5 : applyCastling (mpStage1 b 2 0 k) (movedSel k 2 0) k.get_position.1 2 0 =
        setPiece (setPiece (mpStage1 b 2 0 k) (3, 0)
          (some { ro with current_pos := (3, 0) })) (0, 0) none := by
      unfold applyCastling
      rw [if_pos ⟨hk, show k.current_pos.1 = 4 from by rw [hkpos]⟩]
      rw [if_neg (fun h => absurd h.2.2 (by decide))]
      rw [if_pos ⟨hkc, rfl, rfl⟩]
      rw [hb4]
    refine ⟨?_, ?_⟩
    · rw [mpCore_tileAt, tileAt_checksPhase hcons5, hb5,
        tileAt_setPiece_other (by decide)]
      exact tileAt_setPiece_same (getTile_isSome_of_shape hshape4 (by decide) (by decide)) _
    · rw [mpCore_tileAt, tileAt_checksPhase hcons5, hb5]
      exact tileAt_setPiece_same
        (getTile_isSome_of_shape (gridShape8_setPiece hshape4 _ _) (by decide) (by decide)) _
  · -- White, short: king to (6,0), rook (7,0) → (5,0)
    have hne_k : ((7 : Nat), (0 : Nat)) ≠ k.get_position := by
      show _ ≠ k.current_pos
      rw [hkpos]; decide
    have hb4 : tileAt (mpStage1 b 6 0 k) (7, 0) = some ro := by
      rw [tileAt_mpStage1, tileAt_setPiece_other hne_k, tileAt_setPiece_other (by decide)]
      exact hro
    have hcons4 : gridConsistent (mpStage1 b 6 0 k) := gridConsistent_mpStage1 hg 6 0 k
    have hshape4 : gridShape8 (mpStage1 b 6 0 k) := gridShape8_mpStage1 hs8 6 0 k
    have hcons5 := gridConsistent_applyCastling hcons4 (movedSel k 6 0) k.get_position.1 6 0
    have hb5 : applyCastling (mpStage1 b 6 0 k) (movedSel k 6 0) k.get_position.1 6 0 =
        setPiece (setPiece (mpStage1 b 6 0 k) (5, 0)
          (some { ro with current_pos := (5, 0) })) (7, 0) none := by
      unfold applyCastling
      rw [if_pos ⟨hk, show k.current_pos.1 = 4 from by rw [hkpos]⟩]
      rw [if_pos ⟨hkc, rfl, rfl⟩]
      rw [hb4]
    refine ⟨?_, ?_⟩
    · rw [mpCore_tileAt, tileAt_checksPhase hcons5, hb5,
        tileAt_setPiece_other (by decide)]
      exact tileAt_setPiece_same (getTile_isSome_of_shape hshape4 (by decide) (by decide)) _
    · rw [mpCore_tileAt, tileAt_checksPhase hcons5, hb5]
      exact tileAt_setPiece_same
        (getTile_isSome_of_shape (gridShape8_setPiece hshape4 _ _) (by decide) (by decide)) _
  · -- Black, long: king to (2,7), rook (0,7) → (3,7)
    have hne_k : ((0 : Nat), (7 : Nat)) ≠ k.get_position := by
      show _ ≠ k.current_pos
      rw [hkpos]; decide
    have hb4 : tileAt (mpStage1 b 2 7 k) (0, 7) = some ro := by
      rw [tileAt_mpStage1, tileAt_setPiece_other hne_k, tileAt_setPiece_other (by decide)]
      exact hro
    have hcons4 : gridConsistent (mpStage1 b 2 7 k) := gridConsistent_mpStage1 hg 2 7 k
    have hshape4 : gridShape8 (mpStage1 b 2 7 k) := gridShape8_mpStage1 hs8 2 7 k
    have hcons5 := gridConsistent_applyCastling hcons4 (movedSel k 2 7) k.get_position.1 2 7
    have hb5 : applyCastling (mpStage1 b 2 7 k) (movedSel k 2 7) k.get_position.1 2 7 =
        setPiece (setPiece (mpStage1 b 2 7 k) (3, 7)
          (some { ro with current_pos := (3, 7) })) (0, 7) none := by
      unfold applyCastling
      rw [if_pos ⟨hk, show k.current_pos.1 = 4 from by rw [hkpos]⟩]
      rw [if_neg (fun h => absurd h.2.1 (by decide))]
      rw [if_neg (fun h => absurd h.2.1 (by decide))]
      rw [if_neg (fun h => absurd h.2.2 (by decide))]
      rw [if_pos ⟨hkc, rfl, rfl⟩]
      rw [hb4]
    refine ⟨?_, ?_⟩
    · rw [mpCore_tileAt, tileAt_checksPhase hcons5, hb5,
        tileAt_setPiece_other (by decide)]
      exact tileAt_setPiece_same (getTile_isSome_of_shape hshape4 (by decide) (by decide)) _
    · rw [mpCore_tileAt, tileAt_checksPhase hcons5, hb5]
      exact tileAt_setPiece_same
        (getTile_isSome_of_shape (gridShape8_setPiece hshape4 _ _) (by decide) (by decide)) _
  · -- Black, short: king to (6,7), rook (7,7) → (5,7)
    have hne_k : ((7 : Nat), (7 : Nat)) ≠ k.get_position := by
      show _ ≠ k.current_pos
      rw [hkpos]; decide
    have hb4 : tileAt (mpStage1 b 6 7 k) (7, 7) = some ro := by
      rw [tileAt_mpStage1, tileAt_setPiece_other hne_k, tileAt_setPiece_other (by decide)]
      exact hro
    have hcons4 : gridConsistent (mpStage1 b 6 7 k) := gridConsistent_mpStage1 hg 6 7 k
    have hshape4 : gridShape8 (mpStage1 b 6 7 k) := gridShape8_mpStage1 hs8 6 7 k
    have hcons5 := gridConsistent_applyCastling hcons4 (movedSel k 6 7) k.get_position.1 6 7
    have hb5 : applyCastling (mpStage1 b 6 7 k) (movedSel k 6 7) k.get_position.1 6 7 =
        setPiece (setPiece (mpStage1 b 6 7 k) (5, 7)
          (some { ro with current_pos := (5, 7) })) (7, 7) none := by
      unfold applyCastling
      rw [if_pos ⟨hk, show k.current_pos.1 = 4 from by rw [hkpos]⟩]
      rw [if_neg (fun h => absurd h.2.1 (by decide))]
      rw [if_neg (fun h => absurd h.2.1 (by decide))]
      rw [if_pos ⟨hkc, rfl, rfl⟩]
      rw [hb4]
    refine ⟨?_, ?_⟩
    · rw [mpCore_tileAt, tileAt_checksPhase hcons5, hb5,
        tileAt_setPiece_other (by decide)]
      exact tileAt_setPiece_same (getTile_isSome_of_shape hshape4 (by decide) (by decide)) _
    · rw [mpCore_tileAt, tileAt_checksPhase hcons5, hb5]
      exact tileAt_setPiece_same
        (getTile_isSome_of_shape (gridShape8_setPiece hshape4 _ _) (by decide) (by decide)) _

theorem C8_castling_witness :
    tileAt (move_piece bCastle (castleKingFile true) (homeRank Color.WHITE))
        (castleRookTo true, homeRank Color.WHITE) =
      some { wRookH1 with current_pos := (castleRookTo true, homeRank Color.WHITE) } ∧
    tileAt (move_piece bCastle (castleKingFile true) (homeRank Color.WHITE))
        (castleRookFrom true, homeRank Color.WHITE) = none :=
  C8_castling bCastle Color.WHITE true wKingE1 wRookH1 (by decide) (by decide)
    (by decide) rfl rfl rfl rfl (by decide)

/-- C9. `resign` sets `checkmate` in addition to `resigned`, records the
winner as the resigning color's opposite, and never touches the grid — so
the board reports a checkmate although none was detected on the grid. -/
theorem C9_resign_reports_checkmate (b : Board) (c : Color) :
    (resign b c).checkmate = true ∧ (resign b c).resigned = true ∧
    (resign b c).mate_color = some c.opposite ∧
    ∀ q, tileAt (resign b c) q = tileAt b q :=
  ⟨rfl, rfl, rfl, fun q => rfl⟩

/-- C10. A `move_piece` call on the live position with a selected piece
appends exactly one record to `move_history`, sets `current_index` to the
new last index (so `is_curr_pos` holds afterwards) and resets
`selected_piece`. -/
theorem C10_history_append (b : Board) (file rank : Nat) (sel : Piece)
    (hcur : is_curr_pos b = true) (hsel : b.selected_piece = some sel) :
    (∃ e, (move_piece b file rank).move_history = b.move_history ++ [e]) ∧
    is_curr_pos (move_piece b file rank) = true ∧
    (move_piece b file rank).selected_piece = none := by
  rw [move_piece_eq file rank hcur hsel]
  exact ⟨mpCore_history b file rank sel, mpCore_curr b file rank sel,
    mpCore_selected b file rank sel⟩

theorem C10_history_append_witness :
    (∃ e, (move_piece bKnightSel 2 2).move_history = bKnightSel.move_history ++ [e]) ∧
    is_curr_pos (move_piece bKnightSel 2 2) = true ∧
    (move_piece bKnightSel 2 2).selected_piece = none :=
  C10_history_append bKnightSel 2 2 wKnightB1 (by decide) rfl

end Chess
